import Mathlib

/-!
# Sidekick response cache: store and response capture

A shallow embedding of `sidekick/middleware/cache/store.go`,
`sidekick/middleware/cache/writer.go` and the configuration and request
handler of `sidekick/middleware/cache/cache.go`.

* The in-memory index `memCache map[string]*MemCacheItem` is a finite map
  (`AList`) from store keys to items.
* The disk mirror is the directory `loc` as far as the store can reach it:
  the children of the cache root `loc/sidekick-cache`, each a regular file or
  a directory of chunk entries, and the other entries of `loc`. A store key
  reaches the disk with every `/` replaced, as the last component of the path
  `loc/sidekick-cache/key`: the empty key and `.` address the cache root
  itself, `..` addresses `loc`, a key holding a NUL byte addresses nothing,
  and every other key names a child of the cache root. Limits a particular
  file system puts on the length of a name are not modelled.
* `time.Now().Unix()` is an explicit argument `now` of every operation that
  reads the clock; clock readings are Unix seconds, so the `int64`
  subtraction in `Get` is exact and is modelled on `Int`.
* Outcomes the operating system decides (a failing `os.WriteFile`, a failing
  `os.RemoveAll` in `Flush`) are explicit arguments.
* Logging is dropped.
-/

namespace Sidekick

/-- Raw bytes of a response body or of a chunk (`[]byte` and the `string`
values the store keeps). -/
abbrev Bytes := List UInt8

/-! ## Disk mirror -/

/-- An entry of a key directory: a chunk file, whose content is `none` when
`os.ReadFile` fails on it, or a subdirectory. -/
inductive PageEntry where
  | file (content : Option Bytes)
  | dir
deriving DecidableEq, Repr

/-- The entries of one key directory, by file name. -/
abbrev PageDir := AList (fun _ : String => PageEntry)

/-- A direct child of the cache root: a regular file, whose content is `none`
when `os.ReadFile` fails on it, or a directory with its entries;
`listable = false` makes `os.ReadDir` fail on it. -/
inductive RootEntry where
  | file (content : Option Bytes)
  | dir (listable : Bool) (pages : PageDir)
deriving DecidableEq

/-- The children of the cache root `loc/sidekick-cache`, by name. -/
abbrev RootDir := AList (fun _ : String => RootEntry)

/-- The constant `CACHE_DIR`. -/
def CACHE_DIR : String := "sidekick-cache"

/-- The directory `loc`: the children of the cache root, and the entries of
`loc` other than the cache root. -/
structure Disk where
  root : RootDir
  outside : PageDir
deriving DecidableEq

instance : EmptyCollection Disk := ⟨{ root := ∅, outside := ∅ }⟩

/-- Names a directory entry can have: not empty, not `.` or `..`, without `/`
and without a NUL byte. -/
def validName (name : String) : Bool :=
  name != "" && name != "." && name != ".." && !name.data.contains '/' &&
    !name.data.contains (Char.ofNat 0)

/-- What the path `loc/sidekick-cache/key` names, for a key without `/`. -/
inductive Target where
  | root
  | parent
  | child (name : String)
  | invalid
deriving DecidableEq, Repr

/-- Resolution of the path `loc+"/"+CACHE_DIR+"/"+key`. -/
def resolve (key : String) : Target :=
  if key = "" ∨ key = "." then .root
  else if key = ".." then .parent
  else if validName key then .child key
  else .invalid

/-- Byte-wise order of file names, the order `os.ReadDir` sorts by. -/
def nameLE (a b : String) : Bool := decide (a.data ≤ b.data)

/-- Entries of a directory in the order `os.ReadDir` returns them. -/
def sortByName {β : Type} (l : List (String × β)) : List (String × β) :=
  l.insertionSort (fun x y => nameLE x.1 y.1 = true)

/-- The listing `os.ReadDir` returns for a directory with the given entries. -/
def dirListing {β : Type} (l : List (String × β)) : List (String × β) :=
  sortByName (l.filter (fun e => validName e.1))

/-- A child of the cache root as an entry of a listing of the root. -/
def RootEntry.toPageEntry : RootEntry → PageEntry
  | .file content => .file content
  | .dir _ _ => .dir

/-- The child of the cache root with the given name. -/
def Disk.lookup (d : Disk) (name : String) : Option RootEntry :=
  if validName name then d.root.lookup name else none

/-- The call `os.ReadDir(loc+"/"+CACHE_DIR)`. -/
def Disk.readRoot (d : Disk) : List (String × RootEntry) :=
  dirListing (d.root.entries.map (fun e => (e.1, e.2)))

/-- The call `os.ReadDir(loc+"/"+CACHE_DIR+"/"+key)`: `none` is an error
(no such child, not a directory, or not listable). -/
def Disk.readDir (d : Disk) (key : String) : Option (List (String × PageEntry)) :=
  match resolve key with
  | .root => some (dirListing (d.root.entries.map (fun e => (e.1, e.2.toPageEntry))))
  | .parent =>
    some (dirListing ((CACHE_DIR, PageEntry.dir) ::
      ((d.outside.erase CACHE_DIR).entries.map (fun e => (e.1, e.2)))))
  | .child name =>
    match d.root.lookup name with
    | some (.dir true pages) => some (dirListing (pages.entries.map (fun e => (e.1, e.2))))
    | _ => none
  | .invalid => none

/-- The call `os.MkdirAll(loc+"/"+CACHE_DIR+"/"+key, os.ModePerm)`: creates the
directory unless something of that name exists. -/
def Disk.mkdirAll (d : Disk) (key : String) : Disk :=
  match resolve key with
  | .child name =>
    match d.root.lookup name with
    | none => { d with root := d.root.insert name (.dir true ∅) }
    | some _ => d
  | _ => d

/-- The call `os.WriteFile(loc+"/"+CACHE_DIR+"/"+key+"/"+file, value, ...)`:
`none` is an error (the directory is missing, or `file` names a directory);
otherwise the file is created or replaced in the directory the key
addresses. -/
def Disk.writeFile (d : Disk) (key file : String) (value : Bytes) : Option Disk :=
  if validName file then
    match resolve key with
    | .root =>
      match d.root.lookup file with
      | some (.dir _ _) => none
      | _ => some { d with root := d.root.insert file (.file (some value)) }
    | .parent =>
      if file = CACHE_DIR then none
      else match d.outside.lookup file with
        | some .dir => none
        | _ => some { d with outside := d.outside.insert file (.file (some value)) }
    | .child name =>
      match d.root.lookup name with
      | some (.dir l pages) =>
        match pages.lookup file with
        | some .dir => none
        | _ =>
          some { d with root := d.root.insert name (.dir l (pages.insert file (.file (some value)))) }
      | _ => none
    | .invalid => none
  else none

/-- The call `os.RemoveAll(loc+"/"+CACHE_DIR+"/"+name)` for a name that
addresses a child of the cache root (the names `Purge` builds start with an
encoding tag), taken as effective (removing a missing path is a success). -/
def Disk.removeAll (d : Disk) (name : String) : Disk :=
  { d with root := d.root.erase name }

/-! ## Strings -/

/-- The call `strings.ReplaceAll(key, "/", "+")`. -/
def normalize (key : String) : String :=
  String.mk (key.data.map (fun c => if c = '/' then '+' else c))

/-- The function `strconv.Itoa`. -/
def Itoa : Int → String
  | .ofNat n => Nat.repr n
  | .negSucc n => "-" ++ Nat.repr (n + 1)

/-! ## Store -/

/-- The struct `MemCacheItem`. -/
structure MemCacheItem where
  content : AList (fun _ : Nat => Bytes)
  value : Bytes
  timestamp : Int
deriving DecidableEq

/-- The struct `Store`; `disk` is the directory `loc`. -/
structure Store where
  ttl : Int
  memCache : AList (fun _ : String => MemCacheItem)
  disk : Disk
deriving DecidableEq

/-- The errors `Get` returns: "Cache expired" and "Key not found in cache". -/
inductive GetError where
  | expired
  | notFound
deriving DecidableEq, Repr

deriving instance DecidableEq for Except

/-- What a call of `Get` does: the returned pair, and the argument of the
`go d.Purge(key)` it dispatches, if any. -/
structure GetResult where
  result : Except GetError Bytes
  spawned : Option String
deriving DecidableEq

/-- Inner loop of `NewStore` over the listing of one key directory, from
loop index `idx`. -/
def loadPages : List (String × PageEntry) → Nat → MemCacheItem → MemCacheItem
  | [], _, item => item
  | (_, .file (some newValue)) :: rest, idx, item =>
    loadPages rest (idx + 1)
      { item with content := item.content.insert idx newValue, value := item.value ++ newValue }
  | _ :: rest, idx, item => loadPages rest (idx + 1) item

/-- Outer loop of `NewStore` over the listing of the cache root. -/
def loadRoot (now : Int) :
    List (String × RootEntry) → AList (fun _ : String => MemCacheItem) →
      AList (fun _ : String => MemCacheItem)
  | [], memCache => memCache
  | (name, .dir true pages) :: rest, memCache =>
    loadRoot now rest
      (memCache.insert name
        (loadPages (dirListing (pages.entries.map (fun e => (e.1, e.2)))) 0
          { content := ∅, value := [], timestamp := now }))
  | _ :: rest, memCache => loadRoot now rest memCache

/-- The function `NewStore` over an existing disk tree. -/
def NewStore (disk : Disk) (ttl : Int) (now : Int) : Store :=
  { ttl := ttl, memCache := loadRoot now disk.readRoot ∅, disk := disk }

/-- Disk fallback loop of `Get`: concatenates the files of a listing; `none`
when a file cannot be read. -/
def readChunks : List (String × PageEntry) → Bytes → Option Bytes
  | [], content => some content
  | (_, .file (some value)) :: rest, content => readChunks rest (content ++ value)
  | (_, .file none) :: _, _ => none
  | (_, .dir) :: rest, content => readChunks rest content

/-- The method `Store.Get`. -/
def Store.Get (d : Store) (now : Int) (key : String) : GetResult :=
  let key := normalize key
  match d.memCache.lookup key with
  | some item =>
    if now - item.timestamp > d.ttl then
      { result := .error .expired, spawned := some key }
    else
      { result := .ok item.value, spawned := none }
  | none =>
    match d.disk.readDir key with
    | none => { result := .error .notFound, spawned := none }
    | some files =>
      match readChunks files [] with
      | none => { result := .error .notFound, spawned := none }
      | some content => { result := .ok content, spawned := none }

/-- The method `Store.Set`, returning the store and the `error` (always nil).
`fault = true` makes `os.WriteFile` fail. -/
def Store.Set (d : Store) (now : Int) (fault : Bool) (key : String) (idx : Int)
    (value : Bytes) : Store × Option String :=
  let key := normalize key
  let item : MemCacheItem :=
    match d.memCache.lookup key with
    | some item => item
    | none => { content := ∅, value := [], timestamp := now }
  let item := if idx = 0 then { item with timestamp := now } else item
  let item := { item with value := item.value ++ value }
  let disk := d.disk.mkdirAll key
  let disk :=
    if fault then disk
    else match disk.writeFile key (Itoa idx) value with
      | some disk' => disk'
      | none => disk
  ({ d with memCache := d.memCache.insert key item, disk := disk }, none)

/-- The method `Store.Purge`. -/
def Store.Purge (d : Store) (key : String) : Store :=
  let key := normalize key
  { d with
    memCache := ((d.memCache.erase ("br::" ++ key)).erase ("gzip::" ++ key)).erase ("none::" ++ key)
    disk := ((d.disk.removeAll ("br::" ++ key)).removeAll ("gzip::" ++ key)).removeAll
      ("none::" ++ key) }

/-- The method `Store.Flush`. `residue = none`: `os.RemoveAll` succeeds and the
root is recreated empty; `residue = some t`: it fails, leaving the children
`t` in the root, and the error is returned. -/
def Store.Flush (d : Store) (residue : Option RootDir) : Store × Option String :=
  match residue with
  | none => ({ d with memCache := ∅, disk := { d.disk with root := ∅ } }, none)
  | some t => ({ d with memCache := ∅, disk := { d.disk with root := t } }, some "remove failed")

/-- One `Set` call of a sequence: the clock reading, whether the disk write
fails, and the chunk. -/
structure ChunkWrite where
  now : Int
  fault : Bool
  value : Bytes
deriving DecidableEq

/-- The calls `Set(key, i, c_i)`, `Set(key, i+1, c_(i+1))`, ... made in order. -/
def Store.setFrom (d : Store) (key : String) : Int → List ChunkWrite → Store
  | _, [] => d
  | i, c :: cs => Store.setFrom (d.Set c.now c.fault key i c.value).1 key (i + 1) cs

/-- The bytes of a sequence of chunks, concatenated in order. -/
def joinChunks (cs : List ChunkWrite) : Bytes :=
  (cs.map (fun c => c.value)).flatten

/-- The map `List` returns, with its two entries `mem` and `disk`. -/
structure Listing where
  mem : List String
  disk : List String
deriving DecidableEq

/-- Loop of `List` over the listing of the cache root. -/
def listDisk : List (String × RootEntry) → List String
  | [] => []
  | (name, .file _) :: rest => name :: listDisk rest
  | (_, .dir _ _) :: rest => listDisk rest

/-- The method `Store.List`. -/
def Store.List (d : Store) : Listing :=
  { mem := d.memCache.keys, disk := listDisk d.disk.readRoot }

/-! ## Response capture -/

/-- The underlying `http.ResponseWriter`: its header map, the status codes it
was sent, and the body chunks it was sent, in order. -/
structure ResponseWriter where
  header : AList (fun _ : String => String)
  statuses : List Int
  body : List Bytes
deriving DecidableEq

/-- What the underlying `Write` returns: byte count and error. -/
structure WriteReply where
  n : Int
  err : Option String
deriving DecidableEq

/-- The method `Header().Get`. -/
def ResponseWriter.headerGet (rw : ResponseWriter) (name : String) : String :=
  (rw.header.lookup name).getD ""

/-- The method `Header().Set`. -/
def ResponseWriter.headerSet (rw : ResponseWriter) (name value : String) : ResponseWriter :=
  { rw with header := rw.header.insert name value }

/-- The struct `CustomWriter` (request and logger dropped). -/
structure CustomWriter where
  rw : ResponseWriter
  store : Store
  path : String
  idx : Int
  cacheResponseCodes : List String
  status : Int
deriving DecidableEq

/-- The function `NewCustomWriter`. -/
def NewCustomWriter (rw : ResponseWriter) (db : Store) (path : String)
    (codes : List String) : CustomWriter :=
  { rw := rw, store := db, path := path, idx := 0, cacheResponseCodes := codes, status := 200 }

/-- The method `CustomWriter.WriteHeader`. -/
def CustomWriter.WriteHeader (r : CustomWriter) (status : Int) : CustomWriter :=
  { r with status := status, rw := { r.rw with statuses := r.rw.statuses ++ [status] } }

/-- The slice `status[0:1]` of a status string. -/
def firstByte (status : String) : String :=
  String.mk (status.data.take 1)

/-- The loop of `Write` over the configured codes: `true` when it leaves
`bypass` false. -/
def codeMatches (status : Int) : List String → Bool
  | [] => false
  | code :: rest =>
    if code = Itoa status then true
    else if code.utf8ByteSize = 1 ∧ code = firstByte (Itoa status) then true
    else codeMatches status rest

/-- The method `CustomWriter.Write`. `now` and `fault` are passed to
`Store.Set`; `reply` is what the underlying `Write` answers. -/
def CustomWriter.Write (r : CustomWriter) (now : Int) (fault : Bool) (reply : WriteReply)
    (b : Bytes) : CustomWriter × WriteReply :=
  let ct := r.rw.headerGet "Content-Encoding"
  let rw := r.rw.headerSet "X-WPEverywhere-Cache" "MISS"
  let bypass := !codeMatches r.status r.cacheResponseCodes
  let r : CustomWriter :=
    if !bypass then
      let ct := if ct = "" then "none" else ct
      let cacheKey := ct ++ "::" ++ r.path
      { r with rw := rw, store := (r.store.Set now fault cacheKey r.idx b).1, idx := r.idx + 1 }
    else { r with rw := rw }
  ({ r with rw := { r.rw with body := r.rw.body ++ [b] } }, reply)

/-- One `Write` call of a sequence: the clock reading and disk fault passed on
to `Store.Set`, the answer of the underlying writer, and the chunk. -/
structure WriteCall where
  now : Int
  fault : Bool
  reply : WriteReply
  b : Bytes
deriving DecidableEq

/-- The `Store.Set` call a cached `Write` makes. -/
def WriteCall.toChunkWrite (c : WriteCall) : ChunkWrite :=
  { now := c.now, fault := c.fault, value := c.b }

/-- Successive `Write` calls on one capture, with nothing else touching the
capture or its header in between. -/
def CustomWriter.writeAll (r : CustomWriter) : List WriteCall → CustomWriter
  | [] => r
  | c :: cs => CustomWriter.writeAll (r.Write c.now c.fault c.reply c.b).1 cs

/-- The encoding tag `Write` puts in the cache key for a `Content-Encoding`
header value: the value itself, `none` when it is empty. -/
def encodingTag (ct : String) : String :=
  if ct = "" then "none" else ct

/-! ## Configuration and request handler (`cache.go`) -/

/-- The predicate `unicode.IsSpace`, which `strings.TrimSpace` trims by. -/
def isSpace (c : Char) : Bool :=
  c.toNat ∈ [9, 10, 11, 12, 13, 32, 0x85, 0xA0, 0x1680, 0x2028, 0x2029, 0x202F, 0x205F, 0x3000] ||
    (0x2000 ≤ c.toNat && c.toNat ≤ 0x200A)

/-- The function `strings.TrimSpace`. -/
def TrimSpace (s : String) : String :=
  String.mk ((s.data.dropWhile isSpace).reverse.dropWhile isSpace).reverse

/-- Loop of `strings.Split(s, ",")`; `acc` holds the current field reversed. -/
def splitComma : List Char → List Char → List String
  | [], acc => [String.mk acc.reverse]
  | c :: rest, acc =>
    if c = ',' then String.mk acc.reverse :: splitComma rest [] else splitComma rest (c :: acc)

/-- The call `strings.Split(s, ",")`. -/
def Split (s : String) : List String :=
  splitComma s.data []

/-- Search loop of `strings.Contains`. -/
def containsAt : List Char → List Char → Bool
  | [], substr => substr.isEmpty
  | c :: rest, substr => substr.isPrefixOf (c :: rest) || containsAt rest substr

/-- The function `strings.Contains`. -/
def Contains (s substr : String) : Bool :=
  containsAt s.data substr.data

/-- The function `strings.HasPrefix`. -/
def HasPrefix (s pre : String) : Bool :=
  pre.data.isPrefixOf s.data

/-- Loop of `strings.Replace(s, old, "", 1)`: drops the first occurrence. -/
def dropFirst : List Char → List Char → List Char
  | [], _ => []
  | c :: rest, old =>
    if old.isPrefixOf (c :: rest) then (c :: rest).drop old.length else c :: dropFirst rest old

/-- The call `strings.Replace(s, old, "", 1)`. -/
def ReplaceFirst (s old : String) : String :=
  String.mk (dropFirst s.data old.data)

/-- The conversion `string(code[0])`: the first byte of the string, read as a
code point. -/
def byteZero (code : String) : String :=
  match code.data with
  | [] => ""
  | c :: _ => String.singleton (Char.ofNat ((String.utf8EncodeChar c).headD 0).toNat)

/-- Body of the loops over `codes` in `UnmarshalCaddyfile` and `Provision`. -/
def normalizeCode (code : String) : String :=
  let code := TrimSpace code
  if Contains code "XX" then byteZero code else code

/-- Digits of `strconv.Atoi`, most significant first. -/
def parseDigits : List Char → Nat → Option Nat
  | [], n => some n
  | c :: cs, n => if c.isDigit then parseDigits cs (10 * n + (c.toNat - 48)) else none

/-- Magnitude and sign handling of `strconv.Atoi` on a 64-bit `int`. -/
def atoiSigned (neg : Bool) (ds : List Char) : Int × Bool :=
  if ds = [] then (0, false)
  else match parseDigits ds 0 with
    | none => (0, false)
    | some n =>
      if neg then (if n ≤ 2 ^ 63 then (-(n : Int), true) else (-(2 ^ 63 : Int), false))
      else (if n < 2 ^ 63 then ((n : Int), true) else ((2 ^ 63 - 1 : Int), false))

/-- The function `strconv.Atoi`: the value, and whether `err` is nil. -/
def Atoi (s : String) : Int × Bool :=
  match s.data with
  | '-' :: ds => atoiSigned true ds
  | '+' :: ds => atoiSigned false ds
  | ds => atoiSigned false ds

/-- The fields of `Cache` that `UnmarshalCaddyfile` fills, as they stand before
`Provision`; a nil slice is `none`. -/
structure Config where
  Loc : String
  PurgePath : String
  PurgeKey : String
  BypassPathPrefixes : Option (List String)
  BypassHome : Bool
  CacheResponseCodes : Option (List String)
  TTL : Int
deriving DecidableEq

/-- The zero value `new(Cache)`. -/
def Config.zero : Config :=
  { Loc := "", PurgePath := "", PurgeKey := "", BypassPathPrefixes := none, BypassHome := false,
    CacheResponseCodes := none, TTL := 0 }

/-- One round of the loop of `UnmarshalCaddyfile`: the directive `key` and its
argument, `none` when `d.Args(&value)` fails. -/
def unmarshalStep (c : Config) (key : String) (arg : Option String) : Config :=
  match arg with
  | none => c
  | some value =>
    if key = "loc" then { c with Loc := value }
    else if key = "bypass_path_prefixes" then
      { c with BypassPathPrefixes := some (Split (TrimSpace value)) }
    else if key = "bypass_home" then
      (if value = "true" then { c with BypassHome := true } else c)
    else if key = "cache_response_codes" then
      { c with CacheResponseCodes := some ((Split (TrimSpace value)).map normalizeCode) }
    else if key = "ttl" then
      (if (Atoi value).2 then { c with TTL := (Atoi value).1 } else c)
    else if key = "purge_path" then { c with PurgePath := value }
    else if key = "purge_key" then { c with PurgeKey := value }
    else c

/-- The method `Cache.UnmarshalCaddyfile` over the directives of the block. -/
def UnmarshalCaddyfile (c : Config) (directives : List (String × Option String)) : Config :=
  directives.foldl (fun c d => unmarshalStep c d.1 d.2) c

/-- The environment variables `Provision` reads with `os.Getenv` (empty when
unset). -/
structure Env where
  CACHE_LOC : String
  CACHE_RESPONSE_CODES : String
  BYPASS_PATH_PREFIX : String
  BYPASS_HOME : String
  TTL : String
  PURGE_PATH : String
  PURGE_KEY : String
deriving DecidableEq

/-- The struct `Cache` after `Provision` (logger dropped). -/
structure Cache where
  Loc : String
  PurgePath : String
  PurgeKey : String
  BypassPathPrefixes : List String
  BypassHome : Bool
  CacheResponseCodes : List String
  TTL : Int
  Store : Store
deriving DecidableEq

/-- The method `Cache.Provision`; `disk` is the tree found at
`Loc/sidekick-cache` and `now` the clock reading of `NewStore`. -/
def Provision (c : Config) (env : Env) (disk : Disk) (now : Int) : Cache :=
  let loc := if c.Loc = "" then env.CACHE_LOC else c.Loc
  let codes :=
    match c.CacheResponseCodes with
    | none => (Split env.CACHE_RESPONSE_CODES).map normalizeCode
    | some codes => codes
  let prefixes :=
    match c.BypassPathPrefixes with
    | none => Split (TrimSpace env.BYPASS_PATH_PREFIX)
    | some prefixes => prefixes
  let bypassHome :=
    if c.BypassHome = false then (if env.BYPASS_HOME = "true" then true else c.BypassHome)
    else c.BypassHome
  let ttl := if c.TTL = 0 then (Atoi env.TTL).1 else c.TTL
  let purgePath :=
    if c.PurgePath = "" then (if env.PURGE_PATH = "" then "/__wp_cache/purge" else env.PURGE_PATH)
    else c.PurgePath
  let purgeKey := if c.PurgeKey = "" then env.PURGE_KEY else c.PurgeKey
  { Loc := loc, PurgePath := purgePath, PurgeKey := purgeKey, BypassPathPrefixes := prefixes,
    BypassHome := bypassHome, CacheResponseCodes := codes, TTL := ttl,
    Store := NewStore disk ttl now }

/-- The parts of `http.Request` the handler reads: method, `URL.Path`, and the
header map (values by canonical name). -/
structure Request where
  method : String
  path : String
  header : AList (fun _ : String => List String)
deriving DecidableEq

/-- The method `r.Header.Get`: the first value, empty when there is none. -/
def Request.headerGet (r : Request) (name : String) : String :=
  match r.header.lookup name with
  | some (v :: _) => v
  | _ => ""

/-- The match of the unanchored pattern `.*(\.[^.]+)$` on a path: some dot is
followed by one or more characters up to the end, none of them a dot. -/
def extensionMatch : List Char → Bool
  | [] => false
  | c :: rest => (c = '.' && !rest.isEmpty && !rest.contains '.') || extensionMatch rest

/-- Loop of `ServeHTTP` over the bypass prefixes. -/
def prefixBypass (path : String) : List String → Bool
  | [] => false
  | pre :: rest => (HasPrefix path pre && pre != "") || prefixBypass path rest

/-- The value of `bypass` once `ServeHTTP` has made its three checks. -/
def Cache.bypass (c : Cache) (r : Request) : Bool :=
  prefixBypass r.path c.BypassPathPrefixes || extensionMatch r.path.data ||
    (c.BypassHome && r.path = "/")

/-- Loop of `ServeHTTP` over the `Accept-Encoding` values. -/
def pickEncoding : List String → String → String
  | [], encoding => encoding
  | re :: rest, encoding =>
    if Contains re "br" then "br"
    else if Contains re "gzip" then pickEncoding rest "gzip"
    else pickEncoding rest encoding

/-- A goroutine the handler or the store starts: `go db.Flush()`,
`go db.Purge(path)`. -/
inductive Task where
  | flush
  | purge (key : String)
deriving DecidableEq, Repr

/-- How `ServeHTTP` answers: by handing the request to `next` with the raw
writer or with a capture, or by writing the cache listing, the body `OK`, or a
cached body itself. -/
inductive Outcome where
  | next (w : ResponseWriter)
  | listed (w : ResponseWriter) (list : Listing)
  | ok (w : ResponseWriter)
  | hit (w : ResponseWriter)
  | captured (nw : CustomWriter)
deriving DecidableEq

/-- What a call of `ServeHTTP` does: the goroutines started and the answer. -/
structure Handled where
  spawned : List Task
  outcome : Outcome
deriving DecidableEq

/-- The method `Cache.ServeHTTP`. -/
def Cache.ServeHTTP (c : Cache) (w : ResponseWriter) (r : Request) (now : Int) : Handled :=
  if c.bypass r then { spawned := [], outcome := .next w }
  else
    let db := c.Store
    let nw := NewCustomWriter w db r.path c.CacheResponseCodes
    if Contains r.path c.PurgePath && r.method = "GET" &&
        r.headerGet "X-WPSidekick-Purge-Key" = c.PurgeKey then
      { spawned := [], outcome := .listed w db.List }
    else if Contains r.path c.PurgePath && r.method = "POST" then
      let key := r.headerGet "X-WPSidekick-Purge-Key"
      let spawned :=
        if key = c.PurgeKey then
          let pathToPurge := ReplaceFirst r.path c.PurgePath
          if pathToPurge.utf8ByteSize < 2 then [Task.flush] else [Task.purge pathToPurge]
        else []
      { spawned := spawned, outcome := .ok { w with body := w.body ++ [[79, 75]] } }
    else if Contains (r.headerGet "Cookie") "wordpress_logged_in" then
      { spawned := [], outcome := .next w }
    else
      let encoding := pickEncoding ((r.header.lookup "Accept-Encoding").getD []) ""
      let encoding := if encoding = "" then "none" else encoding
      let cacheKey := encoding ++ "::" ++ r.path
      let got := db.Get now cacheKey
      let spawned :=
        match got.spawned with
        | some key => [Task.purge key]
        | none => []
      match got.result with
      | .ok cacheItem =>
        { spawned := spawned
          outcome := .hit
            { ((((w.headerSet "X-WPEverywhere-Cache" "HIT").headerSet "Content-Type"
                "text/html; charset=UTF-8").headerSet "Server" "Caddy").headerSet "Vary"
                "Accept-Encoding").headerSet "Content-Encoding" encoding with
              body := w.body ++ [cacheItem] } }
      | .error _ => { spawned := spawned, outcome := .captured nw }

/-! ## Lemmas and theorems -/

theorem normalize_append (a b : String) : normalize (a ++ b) = normalize a ++ normalize b := by
  unfold normalize
  rw [String.data_append, List.map_append]
  rfl

theorem normalize_idem (k : String) : normalize (normalize k) = normalize k := by
  unfold normalize
  simp only [List.map_map]
  congr 1
  apply List.map_congr_left
  intro c _
  by_cases h : c = '/'
  · subst h; decide
  · simp [h]

theorem tag_append_ne (p k : String) (hp : p.length ≠ 0) : p ++ k ≠ k := by
  intro h
  have := congrArg String.length h
  rw [String.length_append] at this
  omega

theorem Set_lookup (d : Store) (now : Int) (fault : Bool) (key : String) (idx : Int) (value : Bytes) :
    (d.Set now fault key idx value).1.memCache.lookup (normalize key) =
      some (match d.memCache.lookup (normalize key) with
        | some item =>
          { item with timestamp := if idx = 0 then now else item.timestamp, value := item.value ++ value }
        | none => { content := ∅, value := value, timestamp := now }) := by
  unfold Store.Set
  simp only [AList.lookup_insert]
  cases h : d.memCache.lookup (normalize key) <;> by_cases hi : idx = 0 <;> simp [hi]

theorem Set_ttl (d : Store) (now : Int) (fault : Bool) (key : String) (idx : Int) (value : Bytes) :
    (d.Set now fault key idx value).1.ttl = d.ttl := rfl

theorem setFrom_ttl (key : String) (cs : List ChunkWrite) :
    ∀ (d : Store) (i : Int), (d.setFrom key i cs).ttl = d.ttl := by
  induction cs with
  | nil => intro d i; rfl
  | cons c cs ih => intro d i; simp only [Store.setFrom]; rw [ih, Set_ttl]

theorem setFrom_lookup_pos (key : String) (cs : List ChunkWrite) :
    ∀ (d : Store) (i : Int) (item : MemCacheItem), 0 < i →
      d.memCache.lookup (normalize key) = some item →
      (d.setFrom key i cs).memCache.lookup (normalize key) =
        some { item with value := item.value ++ joinChunks cs } := by
  induction cs with
  | nil => intro d i item _ h; simpa [Store.setFrom, joinChunks] using h
  | cons c cs ih =>
    intro d i item hi h
    simp only [Store.setFrom]
    have hne : i ≠ 0 := by omega
    have hs := Set_lookup d c.now c.fault key i c.value
    rw [h] at hs
    simp only [hne, if_false] at hs
    rw [ih _ (i + 1) _ (by omega) hs]
    simp [joinChunks, List.append_assoc]

theorem setFrom_lookup_zero (key : String) (c : ChunkWrite) (cs : List ChunkWrite) (d : Store) :
    (d.setFrom key 0 (c :: cs)).memCache.lookup (normalize key) =
      some (match d.memCache.lookup (normalize key) with
        | some item =>
          { item with timestamp := c.now, value := item.value ++ joinChunks (c :: cs) }
        | none => { content := ∅, value := joinChunks (c :: cs), timestamp := c.now }) := by
  simp only [Store.setFrom]
  have hs := Set_lookup d c.now c.fault key 0 c.value
  rw [setFrom_lookup_pos key cs _ (0 + 1) _ (by omega) hs]
  cases h : d.memCache.lookup (normalize key) <;> simp [joinChunks, List.append_assoc]

theorem Get_of_lookup (d : Store) (now : Int) (key : String) (item : MemCacheItem)
    (h : d.memCache.lookup (normalize key) = some item) :
    d.Get now key =
      if now - item.timestamp > d.ttl then
        { result := .error .expired, spawned := some (normalize key) }
      else { result := .ok item.value, spawned := none } := by
  unfold Store.Get
  simp only [h]


theorem validName_ne (k : String) (h : validName k = true) : k ≠ "" ∧ k ≠ "." ∧ k ≠ ".." := by
  unfold validName at h
  simp only [Bool.and_eq_true, bne_iff_ne, ne_eq] at h
  exact ⟨h.1.1.1.1, h.1.1.1.2, h.1.1.2⟩

theorem resolve_of_valid (k : String) (h : validName k = true) : resolve k = .child k := by
  obtain ⟨h1, h2, h3⟩ := validName_ne k h
  unfold resolve
  rw [if_neg (by rintro (e | e) <;> contradiction), if_neg h3, if_pos h]

theorem resolve_of_not_valid (k : String) (h1 : k ≠ "") (h2 : k ≠ ".") (h3 : k ≠ "..")
    (h : validName k = false) : resolve k = .invalid := by
  unfold resolve
  rw [if_neg (by rintro (e | e) <;> contradiction), if_neg h3, if_neg (by rw [h]; decide)]

theorem readDir_of_not_special (t : Disk) (k : String) (h1 : k ≠ "") (h2 : k ≠ ".")
    (h3 : k ≠ "..") :
    t.readDir k =
      match t.lookup k with
      | some (.dir true pages) => some (dirListing (pages.entries.map (fun e => (e.1, e.2))))
      | _ => none := by
  unfold Disk.readDir Disk.lookup
  cases hv : validName k with
  | true => rw [resolve_of_valid k hv]; simp only [if_true]
  | false => rw [resolve_of_not_valid k h1 h2 h3 hv]; simp

theorem lookup_removeAll (t : Disk) (a k : String) :
    (t.removeAll a).lookup k = if k = a then none else t.lookup k := by
  unfold Disk.removeAll Disk.lookup
  by_cases hv : validName k = true
  · simp only [hv, if_true]
    by_cases hk : k = a
    · subst hk; simp
    · simp [hk, AList.lookup_erase_ne hk]
  · simp [hv]

theorem Purge_lookup_self (d : Store) (kn : String) (h : normalize kn = kn) :
    (d.Purge kn).memCache.lookup kn = d.memCache.lookup kn ∧
      (d.Purge kn).disk.lookup kn = d.disk.lookup kn := by
  have hb : kn ≠ "br::" ++ kn := fun e => tag_append_ne "br::" kn (by decide) e.symm
  have hg : kn ≠ "gzip::" ++ kn := fun e => tag_append_ne "gzip::" kn (by decide) e.symm
  have hn : kn ≠ "none::" ++ kn := fun e => tag_append_ne "none::" kn (by decide) e.symm
  unfold Store.Purge
  simp only [h]
  constructor
  · rw [AList.lookup_erase_ne hn, AList.lookup_erase_ne hg, AList.lookup_erase_ne hb]
  · rw [lookup_removeAll, lookup_removeAll, lookup_removeAll, if_neg hn, if_neg hg, if_neg hb]

/-- C2 (as the code behaves): a `Get` on an entry older than the TTL returns
the Expired error and dispatches `Purge` with the normalised store key; that
`Purge` removes the three keys obtained by putting `br::`, `gzip::` and
`none::` in front of its argument, none of which is the key itself, so the entry and
its disk directory stay and the next `Get` is Expired again, not not-found. -/
theorem expired_entry_survives_eviction (d : Store) (now : Int) (key : String)
    (item : MemCacheItem) (h : d.memCache.lookup (normalize key) = some item)
    (hexp : now - item.timestamp > d.ttl) :
    d.Get now key = { result := .error .expired, spawned := some (normalize key) } ∧
      (d.Purge (normalize key)).memCache.lookup (normalize key) = some item ∧
      (d.Purge (normalize key)).disk.lookup (normalize key) = d.disk.lookup (normalize key) ∧
      ((d.Purge (normalize key)).Get now key).result = .error .expired := by
  have hp := Purge_lookup_self d (normalize key) (normalize_idem key)
  refine ⟨?_, ?_, hp.2, ?_⟩
  · rw [Get_of_lookup d now key item h, if_pos hexp]
  · rw [hp.1, h]
  · rw [Get_of_lookup _ now key item (by rw [hp.1, h])]
    have : (d.Purge (normalize key)).ttl = d.ttl := rfl
    rw [this, if_pos hexp]

/-- Concrete instance: an entry written at time 0 with TTL 60, read at time 100. -/
theorem expired_entry_survives_eviction_witness :
    ((({ ttl := 60, memCache := ∅, disk := ∅ } : Store).Set 0 false "none::/foo" 0 [7]).1.Get 100
        "none::/foo" = { result := .error .expired, spawned := some "none::+foo" }) ∧
    (((({ ttl := 60, memCache := ∅, disk := ∅ } : Store).Set 0 false "none::/foo" 0 [7]).1.Purge
        "none::+foo").Get 100 "none::/foo").result = .error .expired := by
  have h := expired_entry_survives_eviction
    (({ ttl := 60, memCache := ∅, disk := ∅ } : Store).Set 0 false "none::/foo" 0 [7]).1 100
    "none::/foo" { content := ∅, value := [7], timestamp := 0 } rfl (by decide)
  exact ⟨h.1, h.2.2.2⟩

/-- C1 (as the code behaves): after `Set(k,0,c0)`, ..., `Set(k,n-1,c(n-1))` a
`Get(k)` within the TTL of the index-0 write returns the value the key had in
memory before the calls (empty when it had no entry) followed by `c0 ++ ... ++
c(n-1)`: the round trip holds for a key that was not resident, and on a
resident key the stale body stays in front of the new chunks. -/
theorem round_trip_on_resident_key (d : Store) (key : String) (c : ChunkWrite)
    (cs : List ChunkWrite) (now : Int) (hnow : now - c.now ≤ d.ttl) :
    ((d.setFrom key 0 (c :: cs)).Get now key).result =
      .ok (((d.memCache.lookup (normalize key)).map (fun item => item.value)).getD [] ++
        joinChunks (c :: cs)) := by
  rw [Get_of_lookup _ now key _ (setFrom_lookup_zero key c cs d), setFrom_ttl]
  cases h : d.memCache.lookup (normalize key) with
  | none =>
    simp only [Option.map_none', Option.getD_none, List.nil_append]
    rw [if_neg (by omega)]
  | some item =>
    simp only [Option.map_some', Option.getD_some]
    rw [if_neg (by omega)]

/-- Concrete instance, the failing input of C1: with `none::/p` resident with
body `[1]`, the calls `Set(k,0,[2])`, `Set(k,1,[3])` are followed by a `Get`
within the TTL that returns `[1,2,3]`, not `[2,3]`; the disk mirror written by
the same calls holds `[2,3]`, which is what a store rebuilt from it returns. -/
theorem round_trip_on_resident_key_witness :
    (((({ ttl := 60, memCache := ∅, disk := ∅ } : Store).Set 0 false "none::/p" 0 [1]).1.setFrom
        "none::/p" 0 [⟨5, false, [2]⟩, ⟨5, false, [3]⟩]).Get 6 "none::/p").result = .ok [1, 2, 3] ∧
    joinChunks [⟨5, false, [2]⟩, ⟨5, false, [3]⟩] = [2, 3] ∧
    ((NewStore ((({ ttl := 60, memCache := ∅, disk := ∅ } : Store).Set 0 false "none::/p" 0 [1]).1.setFrom
        "none::/p" 0 [⟨5, false, [2]⟩, ⟨5, false, [3]⟩]).disk 60 6).Get 6 "none::/p").result
      = .ok [2, 3] :=
  ⟨round_trip_on_resident_key
      (({ ttl := 60, memCache := ∅, disk := ∅ } : Store).Set 0 false "none::/p" 0 [1]).1
      "none::/p" ⟨5, false, [2]⟩ [⟨5, false, [3]⟩] 6 (by decide),
    by decide, by decide⟩

/-- C7: `Set(k,0,b)` at time `t` on a resident key leaves the timestamp equal
to `t` whatever it was, and `Set(k,i,b)` with `i > 0` leaves it unchanged. -/
theorem chunk_reset_semantics (d : Store) (t : Int) (fault : Bool) (k : String) (b : Bytes)
    (item : MemCacheItem) (h : d.memCache.lookup (normalize k) = some item) :
    (∃ item0, (d.Set t fault k 0 b).1.memCache.lookup (normalize k) = some item0 ∧
        item0.timestamp = t) ∧
      (∀ i : Int, 0 < i → ∃ itemi, (d.Set t fault k i b).1.memCache.lookup (normalize k) = some itemi ∧
        itemi.timestamp = item.timestamp) := by
  constructor
  · refine ⟨_, Set_lookup d t fault k 0 b, ?_⟩
    rw [h]; simp
  · intro i hi
    refine ⟨_, Set_lookup d t fault k i b, ?_⟩
    have : i ≠ 0 := by omega
    rw [h]; simp [this]

/-- Concrete instance: an entry stamped 3, written again at time 9. -/
theorem chunk_reset_semantics_witness :
    (∃ item0, ((({ ttl := 60, memCache := ∅, disk := ∅ } : Store).Set 3 false "br::/a" 0 [1]).1.Set
          9 false "br::/a" 0 [2]).1.memCache.lookup (normalize "br::/a") = some item0 ∧
        item0.timestamp = 9) ∧
      (∀ i : Int, 0 < i → ∃ itemi,
        ((({ ttl := 60, memCache := ∅, disk := ∅ } : Store).Set 3 false "br::/a" 0 [1]).1.Set
          9 false "br::/a" i [2]).1.memCache.lookup (normalize "br::/a") = some itemi ∧
        itemi.timestamp = 3) :=
  chunk_reset_semantics
    (({ ttl := 60, memCache := ∅, disk := ∅ } : Store).Set 3 false "br::/a" 0 [1]).1 9 false
    "br::/a" [2] { content := ∅, value := [1], timestamp := 3 } rfl

/-- C10: on a key with an in-memory entry (value `v`, timestamp `t0`), `Get`
returns the Expired error exactly when `now - t0 > ttl` and returns `v`
otherwise; an entry whose age equals the TTL is served. -/
theorem Get_resident (d : Store) (now : Int) (k : String) (item : MemCacheItem)
    (h : d.memCache.lookup (normalize k) = some item) :
    ((d.Get now k).result = .error .expired ↔ now - item.timestamp > d.ttl) ∧
      (¬ now - item.timestamp > d.ttl → (d.Get now k).result = .ok item.value) ∧
      (now - item.timestamp = d.ttl → (d.Get now k).result = .ok item.value) := by
  rw [Get_of_lookup d now k item h]
  by_cases hexp : now - item.timestamp > d.ttl
  · rw [if_pos hexp]
    exact ⟨iff_of_true rfl hexp, fun hn => absurd hexp hn, fun he => by omega⟩
  · rw [if_neg hexp]
    exact ⟨iff_of_false (fun e => by cases e) hexp, fun _ => rfl, fun _ => rfl⟩

/-- Concrete instance: an entry stamped 40 with TTL 60, read at time 100, is served. -/
theorem Get_resident_witness :
    (((({ ttl := 60, memCache := ∅, disk := ∅ } : Store).Set 40 false "gzip::/a" 0 [4, 2]).1.Get 100
        "gzip::/a").result = .error .expired ↔ (100 : Int) - 40 > 60) ∧
      (((({ ttl := 60, memCache := ∅, disk := ∅ } : Store).Set 40 false "gzip::/a" 0 [4, 2]).1.Get 100
        "gzip::/a").result = .ok [4, 2]) := by
  have h := Get_resident
    (({ ttl := 60, memCache := ∅, disk := ∅ } : Store).Set 40 false "gzip::/a" 0 [4, 2]).1 100
    "gzip::/a" { content := ∅, value := [4, 2], timestamp := 40 } rfl
  exact ⟨h.1, h.2.2 (by decide)⟩


theorem normalize_variant (enc p : String) (h : normalize enc = enc) :
    normalize (enc ++ "::" ++ p) = enc ++ "::" ++ normalize p := by
  rw [normalize_append, normalize_append, h]
  rfl

theorem Get_of_absent (d : Store) (now : Int) (key : String)
    (hm : d.memCache.lookup (normalize key) = none) (h1 : normalize key ≠ "")
    (h2 : normalize key ≠ ".") (h3 : normalize key ≠ "..")
    (hd : d.disk.lookup (normalize key) = none) :
    d.Get now key = { result := .error .notFound, spawned := none } := by
  unfold Store.Get
  simp only [hm, readDir_of_not_special _ _ h1 h2 h3, hd]

theorem cacheKey_not_special (enc path : String) :
    normalize (enc ++ "::" ++ path) ≠ "" ∧ normalize (enc ++ "::" ++ path) ≠ "." ∧
      normalize (enc ++ "::" ++ path) ≠ ".." := by
  have hmem : ':' ∈ (normalize (enc ++ "::" ++ path)).data := by
    rw [normalize_append, normalize_append, String.data_append, String.data_append]
    have : (normalize "::").data = [':', ':'] := by decide
    rw [this]
    simp
  refine ⟨?_, ?_, ?_⟩ <;>
  · intro e
    rw [e] at hmem
    revert hmem
    decide

/-- C3: after `Purge(p)` neither the in-memory index nor the disk mirror holds
an entry for `br::p`, `gzip::p` or `none::p` (a `Get` on each reports not
found), and every other store key has the in-memory entry and the disk
directory it had before; the TTL is unchanged. -/
theorem Purge_scope (d : Store) (p : String) :
    (∀ enc : String, enc = "br" ∨ enc = "gzip" ∨ enc = "none" →
      (d.Purge p).memCache.lookup (normalize (enc ++ "::" ++ p)) = none ∧
      (d.Purge p).disk.lookup (normalize (enc ++ "::" ++ p)) = none ∧
      ∀ now : Int, (d.Purge p).Get now (enc ++ "::" ++ p) =
        { result := .error .notFound, spawned := none }) ∧
    (∀ k : String, k ≠ normalize ("br::" ++ p) → k ≠ normalize ("gzip::" ++ p) →
      k ≠ normalize ("none::" ++ p) →
      (d.Purge p).memCache.lookup k = d.memCache.lookup k ∧
      (d.Purge p).disk.lookup k = d.disk.lookup k) ∧
    (d.Purge p).ttl = d.ttl := by
  have hb : normalize ("br" ++ "::" ++ p) = "br::" ++ normalize p := normalize_variant "br" p rfl
  have hg : normalize ("gzip" ++ "::" ++ p) = "gzip::" ++ normalize p :=
    normalize_variant "gzip" p rfl
  have hn : normalize ("none" ++ "::" ++ p) = "none::" ++ normalize p :=
    normalize_variant "none" p rfl
  have hb1 : normalize ("br::" ++ p) = "br::" ++ normalize p := by
    rw [normalize_append]; rfl
  have hg1 : normalize ("gzip::" ++ p) = "gzip::" ++ normalize p := by
    rw [normalize_append]; rfl
  have hn1 : normalize ("none::" ++ p) = "none::" ++ normalize p := by
    rw [normalize_append]; rfl
  have key : ∀ enc : String, enc = "br" ∨ enc = "gzip" ∨ enc = "none" →
      (d.Purge p).memCache.lookup (normalize (enc ++ "::" ++ p)) = none ∧
      (d.Purge p).disk.lookup (normalize (enc ++ "::" ++ p)) = none := by
    intro enc henc
    unfold Store.Purge
    simp only [lookup_removeAll]
    rcases henc with rfl | rfl | rfl
    · rw [hb]
      simp only [AList.lookup_erase, AList.lookup_eq_none, AList.mem_erase, ne_eq, not_true,
        false_and, and_false, not_false_eq_true, and_self, if_true, ite_self]
    · rw [hg]
      simp only [AList.lookup_erase, AList.lookup_eq_none, AList.mem_erase, ne_eq, not_true,
        false_and, and_false, not_false_eq_true, and_self, if_true, ite_self]
    · rw [hn]
      simp only [AList.lookup_erase, and_self, if_true]
  refine ⟨?_, ?_, rfl⟩
  · intro enc henc
    obtain ⟨h1, h2⟩ := key enc henc
    obtain ⟨s1, s2, s3⟩ := cacheKey_not_special enc p
    exact ⟨h1, h2, fun now => Get_of_absent _ now _ h1 s1 s2 s3 h2⟩
  · intro k h1 h2 h3
    rw [hb1] at h1; rw [hg1] at h2; rw [hn1] at h3
    unfold Store.Purge
    simp only
    constructor
    · rw [AList.lookup_erase_ne h3, AList.lookup_erase_ne h2, AList.lookup_erase_ne h1]
    · rw [lookup_removeAll, lookup_removeAll, lookup_removeAll, if_neg h3, if_neg h2, if_neg h1]

/-- Concrete instance: `Purge("/foo")` with the three variants of `/foo` and `none::/bar` present. -/
theorem Purge_scope_witness :
    (∀ now : Int,
      ((((((({ ttl := 60, memCache := ∅, disk := ∅ } : Store).Set 0 false "br::/foo" 0 [1]).1.Set 0
        false "gzip::/foo" 0 [2]).1.Set 0 false "none::/foo" 0 [3]).1.Set 0 false "none::/bar" 0
        [4]).1.Purge "/foo").Get now "gzip::/foo") = { result := .error .notFound, spawned := none }) ∧
    ((((((({ ttl := 60, memCache := ∅, disk := ∅ } : Store).Set 0 false "br::/foo" 0 [1]).1.Set 0
        false "gzip::/foo" 0 [2]).1.Set 0 false "none::/foo" 0 [3]).1.Set 0 false "none::/bar" 0
        [4]).1.Purge "/foo").Get 1 "none::/bar").result = .ok [4] :=
  ⟨((Purge_scope
      ((((({ ttl := 60, memCache := ∅, disk := ∅ } : Store).Set 0 false "br::/foo" 0 [1]).1.Set 0
        false "gzip::/foo" 0 [2]).1.Set 0 false "none::/foo" 0 [3]).1.Set 0 false "none::/bar" 0
        [4]).1 "/foo").1 "gzip" (Or.inr (Or.inl rfl))).2.2, by decide⟩

/-- C4 (counterexample): after a successful `Flush()` the keys `""`, `.` and
`..` are not reported as not found: `Get` lists the recreated cache root (for
`..` the directory `loc`) and returns the empty body with a nil error. -/
theorem flush_then_get_root :
    (((({ ttl := 60, memCache := ∅, disk := ∅ } : Store).Set 0 false "none::/a" 0 [1]).1.Flush
      none).1.Get 1 "") = { result := .ok [], spawned := none } ∧
    (((({ ttl := 60, memCache := ∅, disk := ∅ } : Store).Set 0 false "none::/a" 0 [1]).1.Flush
      none).1.Get 1 ".") = { result := .ok [], spawned := none } ∧
    (((({ ttl := 60, memCache := ∅, disk := ∅ } : Store).Set 0 false "none::/a" 0 [1]).1.Flush
      none).1.Get 1 "..") = { result := .ok [], spawned := none } := by
  decide

/-- C4 (amended): after `Flush()` the `mem` list of `List()` is empty, whether
or not the directory removal fails; a failing removal is reported as an
error; and after a successful removal `Get` returns the not-found error on
every key whose normalised form is not `""`, `.` or `..`, in particular on
every key of the form `enc::path`. -/
theorem Flush_totality (d : Store) :
    (∀ residue : Option RootDir, (d.Flush residue).1.List.mem = []) ∧
    (∀ t : RootDir, (d.Flush (some t)).2 ≠ none) ∧
    (d.Flush none).2 = none ∧
    (∀ (now : Int) (k : String), normalize k ≠ "" → normalize k ≠ "." → normalize k ≠ ".." →
      (d.Flush none).1.Get now k = { result := .error .notFound, spawned := none }) ∧
    (∀ (now : Int) (enc path : String),
      (d.Flush none).1.Get now (enc ++ "::" ++ path) =
        { result := .error .notFound, spawned := none }) := by
  have hget : ∀ (now : Int) (k : String), normalize k ≠ "" → normalize k ≠ "." →
      normalize k ≠ ".." →
      (d.Flush none).1.Get now k = { result := .error .notFound, spawned := none } := by
    intro now k h1 h2 h3
    refine Get_of_absent _ now k rfl h1 h2 h3 ?_
    show Disk.lookup { d.disk with root := ∅ } (normalize k) = none
    unfold Disk.lookup
    split <;> rfl
  refine ⟨?_, ?_, rfl, hget, ?_⟩
  · intro residue
    cases residue <;> rfl
  · intro t h
    cases h
  · intro now enc path
    obtain ⟨h1, h2, h3⟩ := cacheKey_not_special enc path
    exact hget now _ h1 h2 h3

/-- Concrete instance: a key that was served before the flush is not found after it. -/
theorem Flush_totality_witness :
    (((({ ttl := 60, memCache := ∅, disk := ∅ } : Store).Set 0 false "none::/a" 0 [1]).1.Flush
      none).1.Get 1 "none::/a") = { result := .error .notFound, spawned := none } ∧
    ((({ ttl := 60, memCache := ∅, disk := ∅ } : Store).Set 0 false "none::/a" 0 [1]).1.Get 1
      "none::/a").result = .ok [1] :=
  ⟨(Flush_totality (({ ttl := 60, memCache := ∅, disk := ∅ } : Store).Set 0 false "none::/a" 0
      [1]).1).2.2.2.1 1 "none::/a" (by decide) (by decide) (by decide), by decide⟩

/-- C9 (counterexample): `none::/a/b` and `none::/a+b` are distinct keys, yet
after `Set("none::/a/b", 0, [1, 2])` on an empty store `Get("none::/a+b")`
returns `[1, 2]`; and after the same `Set` the key `""`, which is distinct
also in normalised form, is not reported as not found: `Get("")` lists the
cache root and returns the empty body. -/
theorem distinct_keys_collide :
    "none::/a/b" ≠ "none::/a+b" ∧
    ((({ ttl := 60, memCache := ∅, disk := ∅ } : Store).Set 5 false "none::/a/b" 0 [1, 2]).1.Get 6
      "none::/a+b") = { result := .ok [1, 2], spawned := none } ∧
    normalize "none::/a/b" ≠ normalize "" ∧
    ((({ ttl := 60, memCache := ∅, disk := ∅ } : Store).Set 5 false "none::/a/b" 0 [1, 2]).1.Get 6
      "") = { result := .ok [], spawned := none } := by
  decide

theorem resolve_child_eq (a n : String) (h : resolve a = .child n) : n = a := by
  unfold resolve at h
  split at h
  · cases h
  · split at h
    · cases h
    · split at h
      · cases h; rfl
      · cases h

theorem lookup_mkdirAll_ne (t : Disk) (a b : String) (h : b ≠ a) :
    (t.mkdirAll a).lookup b = t.lookup b := by
  unfold Disk.mkdirAll
  cases hr : resolve a with
  | child n =>
    have hn := resolve_child_eq a n hr
    subst hn
    simp only
    cases hl : t.root.lookup n with
    | none =>
      simp only
      unfold Disk.lookup
      simp only [AList.lookup_insert_ne h]
    | some e => rfl
  | root => rfl
  | parent => rfl
  | invalid => rfl

theorem readDir_mkdirAll_ne (t : Disk) (a k : String) (h : k ≠ a) (h1 : k ≠ "") (h2 : k ≠ ".")
    (h3 : k ≠ "..") : (t.mkdirAll a).readDir k = t.readDir k := by
  rw [readDir_of_not_special _ k h1 h2 h3, readDir_of_not_special _ k h1 h2 h3,
    lookup_mkdirAll_ne t a k h]

theorem readDir_writeFile_ne (t t' : Disk) (a f k : String) (v : Bytes) (h : k ≠ a)
    (h1 : k ≠ "") (h2 : k ≠ ".") (h3 : k ≠ "..") (hw : t.writeFile a f v = some t') :
    t'.readDir k = t.readDir k := by
  rw [readDir_of_not_special _ k h1 h2 h3, readDir_of_not_special _ k h1 h2 h3]
  unfold Disk.writeFile at hw
  split at hw
  · cases hr : resolve a with
    | root =>
      rw [hr] at hw
      simp only at hw
      split at hw
      · cases hw
      · rename_i hnd
        cases hw
        unfold Disk.lookup
        by_cases hv : validName k = true
        · simp only [hv, if_true]
          by_cases hkf : k = f
          · subst hkf
            rw [AList.lookup_insert]
            cases hl : t.root.lookup k with
            | none => rfl
            | some e =>
              cases e with
              | file c => rfl
              | dir l pages => exact absurd hl (hnd l pages)
          · rw [AList.lookup_insert_ne hkf]
        · simp [hv]
    | parent =>
      rw [hr] at hw
      simp only at hw
      split at hw
      · cases hw
      · split at hw
        · cases hw
        · cases hw; rfl
    | child n =>
      have hn := resolve_child_eq a n hr
      subst hn
      rw [hr] at hw
      simp only at hw
      split at hw
      · split at hw
        · cases hw
        · cases hw
          unfold Disk.lookup
          simp only [AList.lookup_insert_ne h]
      · cases hw
    | invalid =>
      rw [hr] at hw
      cases hw
  · cases hw

theorem Set_lookup_ne (d : Store) (now : Int) (fault : Bool) (key : String) (idx : Int)
    (value : Bytes) (k : String) (h : k ≠ normalize key) :
    (d.Set now fault key idx value).1.memCache.lookup k = d.memCache.lookup k :=
  AList.lookup_insert_ne h

theorem Set_readDir_ne (d : Store) (now : Int) (fault : Bool) (key : String) (idx : Int)
    (value : Bytes) (k : String) (h : k ≠ normalize key) (h1 : k ≠ "") (h2 : k ≠ ".")
    (h3 : k ≠ "..") :
    (d.Set now fault key idx value).1.disk.readDir k = d.disk.readDir k := by
  unfold Store.Set
  simp only
  cases fault
  · simp only [Bool.false_eq_true, if_false]
    cases hw : (d.disk.mkdirAll (normalize key)).writeFile (normalize key) (Itoa idx) value with
    | none => exact readDir_mkdirAll_ne _ _ _ h h1 h2 h3
    | some t' =>
      simp only
      rw [readDir_writeFile_ne _ t' _ _ k value h h1 h2 h3 hw]
      exact readDir_mkdirAll_ne _ _ _ h h1 h2 h3
  · simp only [if_true]
    exact readDir_mkdirAll_ne _ _ _ h h1 h2 h3

theorem Get_of_no_dir (d : Store) (now : Int) (key : String)
    (hm : d.memCache.lookup (normalize key) = none) (hd : d.disk.readDir (normalize key) = none) :
    d.Get now key = { result := .error .notFound, spawned := none } := by
  unfold Store.Get
  simp only [hm, hd]

/-- C9 (amended): for two keys whose normalised forms (every `/` replaced by
`+`) differ, `Set(k1,0,b)` on a store with an empty index and an empty cache
root does not make `k2` resident, provided the normalised form of `k2` is not
`""`, `.` or `..`: a following `Get(k2)` reports not found. This covers every
`k2` of the form `enc::path`. -/
theorem exact_match_on_normalized_keys (ttl : Int) (outside : PageDir) (k1 k2 : String)
    (b : Bytes) (now now' : Int) (fault : Bool) (h : normalize k1 ≠ normalize k2) :
    (normalize k2 ≠ "" → normalize k2 ≠ "." → normalize k2 ≠ ".." →
      (({ ttl := ttl, memCache := ∅, disk := { root := ∅, outside := outside } } : Store).Set now
        fault k1 0 b).1.Get now' k2 = { result := .error .notFound, spawned := none }) ∧
    (∀ enc path : String, k2 = enc ++ "::" ++ path →
      (({ ttl := ttl, memCache := ∅, disk := { root := ∅, outside := outside } } : Store).Set now
        fault k1 0 b).1.Get now' k2 = { result := .error .notFound, spawned := none }) := by
  have main : normalize k2 ≠ "" → normalize k2 ≠ "." → normalize k2 ≠ ".." →
      (({ ttl := ttl, memCache := ∅, disk := { root := ∅, outside := outside } } : Store).Set now
        fault k1 0 b).1.Get now' k2 = { result := .error .notFound, spawned := none } := by
    intro h1 h2 h3
    have hne : normalize k2 ≠ normalize k1 := fun e => h e.symm
    refine Get_of_no_dir _ now' k2 ?_ ?_
    · rw [Set_lookup_ne _ now fault k1 0 b _ hne]
      rfl
    · rw [Set_readDir_ne _ now fault k1 0 b _ hne h1 h2 h3,
        readDir_of_not_special _ _ h1 h2 h3]
      show (match Disk.lookup { root := ∅, outside := outside } (normalize k2) with
        | some (.dir true pages) => some (dirListing (pages.entries.map (fun e => (e.1, e.2))))
        | _ => none) = none
      have : Disk.lookup { root := ∅, outside := outside } (normalize k2) = none := by
        unfold Disk.lookup
        split <;> rfl
      rw [this]
  refine ⟨main, ?_⟩
  intro enc path hk
  obtain ⟨h1, h2, h3⟩ := cacheKey_not_special enc path
  rw [← hk] at h1 h2 h3
  exact main h1 h2 h3

/-- Concrete instance at `none::/a/b` and `none::/a/c`. -/
theorem exact_match_on_normalized_keys_witness :
    (({ ttl := 60, memCache := ∅, disk := { root := ∅, outside := ∅ } } : Store).Set 5 false
      "none::/a/b" 0 [1, 2]).1.Get 6 "none::/a/c" =
        { result := .error .notFound, spawned := none } :=
  (exact_match_on_normalized_keys 60 ∅ "none::/a/b" "none::/a/c" [1, 2] 5 6 false
    (by decide)).1 (by decide) (by decide) (by decide)

theorem digitChar_oneByte (n : Nat) : (Nat.digitChar (n % 10)).utf8Size = 1 := by
  have h : n % 10 < 10 := Nat.mod_lt _ (by decide)
  generalize n % 10 = m at h
  interval_cases m <;> decide

theorem toDigitsCore_head (fuel : Nat) :
    ∀ (n : Nat) (ds : List Char), (∀ c, ds.head? = some c → c.utf8Size = 1) → (fuel = 0 → ds ≠ []) →
      ∃ c cs, Nat.toDigitsCore 10 fuel n ds = c :: cs ∧ c.utf8Size = 1 := by
  induction fuel with
  | zero =>
    intro n ds hds hne
    cases ds with
    | nil => exact absurd rfl (hne rfl)
    | cons c cs => exact ⟨c, cs, rfl, hds c rfl⟩
  | succ fuel ih =>
    intro n ds _ _
    simp only [Nat.toDigitsCore]
    split
    · exact ⟨_, _, rfl, digitChar_oneByte n⟩
    · apply ih
      · intro c hc
        simp only [List.head?_cons, Option.some.injEq] at hc
        subst hc
        exact digitChar_oneByte n
      · intro _ h; cases h

theorem Itoa_head (s : Int) : ∃ c cs, (Itoa s).data = c :: cs ∧ c.utf8Size = 1 := by
  cases s with
  | ofNat n =>
    obtain ⟨c, cs, h, hc⟩ := toDigitsCore_head (n + 1) n [] (fun c h => by cases h)
      (fun h => by omega)
    exact ⟨c, cs, h, hc⟩
  | negSucc n =>
    refine ⟨'-', (Nat.repr (n + 1)).data, ?_, by decide⟩
    show ("-" ++ Nat.repr (n + 1)).data = _
    rw [String.data_append]
    rfl

theorem firstByte_Itoa (s : Int) :
    (firstByte (Itoa s)).length = 1 ∧ (firstByte (Itoa s)).utf8ByteSize = 1 := by
  obtain ⟨c, cs, h, hc⟩ := Itoa_head s
  unfold firstByte
  rw [h]
  constructor
  · rfl
  · simp [String.utf8ByteSize, String.utf8ByteSize.go, hc]

theorem Itoa_ne_empty (s : Int) : Itoa s ≠ "" := by
  obtain ⟨c, cs, h, _⟩ := Itoa_head s
  intro e
  rw [e] at h
  cases h

theorem codeMatches_iff (status : Int) (codes : List String) :
    codeMatches status codes = true ↔
      ∃ code ∈ codes, code = Itoa status ∨
        (code.length = 1 ∧ code = firstByte (Itoa status)) := by
  induction codes with
  | nil => simp [codeMatches]
  | cons code rest ih =>
    unfold codeMatches
    by_cases h1 : code = Itoa status
    · simp [h1]
    · by_cases h2 : code = firstByte (Itoa status)
      · have hf := firstByte_Itoa status
        simp [h2, hf.1, hf.2]
      · simp [h1, h2, ih]

theorem headerGet_headerSet_ne (rw : ResponseWriter) (a b v : String) (h : a ≠ b) :
    (rw.headerSet b v).headerGet a = rw.headerGet a := by
  unfold ResponseWriter.headerGet ResponseWriter.headerSet
  simp only [AList.lookup_insert_ne h]

theorem Write_of_match (r : CustomWriter) (now : Int) (fault : Bool) (reply : WriteReply)
    (b : Bytes) (h : codeMatches r.status r.cacheResponseCodes = true) :
    (r.Write now fault reply b).1 =
      { r with
        rw := { (r.rw.headerSet "X-WPEverywhere-Cache" "MISS") with body := r.rw.body ++ [b] }
        store := (r.store.Set now fault
          (encodingTag (r.rw.headerGet "Content-Encoding") ++ "::" ++ r.path) r.idx b).1
        idx := r.idx + 1 } := by
  unfold CustomWriter.Write encodingTag
  simp only [h, Bool.not_true, Bool.not_false, if_true]
  rfl

theorem Write_of_no_match (r : CustomWriter) (now : Int) (fault : Bool) (reply : WriteReply)
    (b : Bytes) (h : codeMatches r.status r.cacheResponseCodes = false) :
    (r.Write now fault reply b).1 =
      { r with
        rw := { (r.rw.headerSet "X-WPEverywhere-Cache" "MISS") with body := r.rw.body ++ [b] } } := by
  unfold CustomWriter.Write
  simp only [h, Bool.not_false, Bool.not_true, Bool.false_eq_true, if_false]
  rfl

/-- C6: `Write` stores the chunk (calls `Set` under the key `encoding::path`
with the current chunk index, and increments the index) if and only if some
configured pattern equals the decimal string of the status or some
one-character pattern equals the first character of that string; otherwise the
store and the chunk index are unchanged. With no configured pattern, or only
the empty pattern, nothing is stored. -/
theorem cacheability_matching (r : CustomWriter) (now : Int) (fault : Bool) (reply : WriteReply)
    (b : Bytes) :
    ((∃ code ∈ r.cacheResponseCodes, code = Itoa r.status ∨
          (code.length = 1 ∧ code = firstByte (Itoa r.status))) →
        (r.Write now fault reply b).1.store =
          (r.store.Set now fault
            (encodingTag (r.rw.headerGet "Content-Encoding") ++ "::" ++ r.path) r.idx b).1 ∧
        (r.Write now fault reply b).1.idx = r.idx + 1) ∧
    (¬ (∃ code ∈ r.cacheResponseCodes, code = Itoa r.status ∨
          (code.length = 1 ∧ code = firstByte (Itoa r.status))) →
        (r.Write now fault reply b).1.store = r.store ∧
        (r.Write now fault reply b).1.idx = r.idx) ∧
    (r.cacheResponseCodes = [] ∨ r.cacheResponseCodes = [""] →
        (r.Write now fault reply b).1.store = r.store ∧
        (r.Write now fault reply b).1.idx = r.idx) := by
  refine ⟨?_, ?_, ?_⟩
  · intro h
    rw [Write_of_match r now fault reply b ((codeMatches_iff _ _).2 h)]
    exact ⟨rfl, rfl⟩
  · intro h
    have hm : codeMatches r.status r.cacheResponseCodes = false := by
      cases hc : codeMatches r.status r.cacheResponseCodes with
      | false => rfl
      | true => exact absurd ((codeMatches_iff _ _).1 hc) h
    rw [Write_of_no_match r now fault reply b hm]
    exact ⟨rfl, rfl⟩
  · intro h
    have hm : codeMatches r.status r.cacheResponseCodes = false := by
      have h1 : ("" : String) ≠ Itoa r.status := fun e => Itoa_ne_empty _ e.symm
      rcases h with h | h
      · rw [h]; rfl
      · rw [h]
        unfold codeMatches
        rw [if_neg h1, if_neg (by intro hh; exact absurd hh.1 (by decide))]
        rfl
    rw [Write_of_no_match r now fault reply b hm]
    exact ⟨rfl, rfl⟩

/-- Concrete instance: with patterns `200` and `2`, status 204 is stored and status 301 is not. -/
theorem cacheability_matching_witness :
    (((NewCustomWriter { header := ∅, statuses := [], body := [] }
          { ttl := 60, memCache := ∅, disk := ∅ } "/a" ["200", "2"]).WriteHeader 204).Write 5 false
        { n := 1, err := none } [9]).1.idx = 1 ∧
    ((((NewCustomWriter { header := ∅, statuses := [], body := [] }
          { ttl := 60, memCache := ∅, disk := ∅ } "/a" ["200", "2"]).WriteHeader 204).Write 5 false
        { n := 1, err := none } [9]).1.store.Get 6 "none::/a").result = .ok [9] ∧
    (((NewCustomWriter { header := ∅, statuses := [], body := [] }
          { ttl := 60, memCache := ∅, disk := ∅ } "/a" ["200", "2"]).WriteHeader 301).Write 5 false
        { n := 1, err := none } [9]).1.store = { ttl := 60, memCache := ∅, disk := ∅ } ∧
    (((NewCustomWriter { header := ∅, statuses := [], body := [] }
          { ttl := 60, memCache := ∅, disk := ∅ } "/a" ["200", "2"]).WriteHeader 301).Write 5 false
        { n := 1, err := none } [9]).1.idx = 0 := by
  have h204 := (cacheability_matching
    ((NewCustomWriter { header := ∅, statuses := [], body := [] }
      { ttl := 60, memCache := ∅, disk := ∅ } "/a" ["200", "2"]).WriteHeader 204) 5 false
    { n := 1, err := none } [9]).1 ⟨"2", by decide, Or.inr (by decide)⟩
  have h301 := (cacheability_matching
    ((NewCustomWriter { header := ∅, statuses := [], body := [] }
      { ttl := 60, memCache := ∅, disk := ∅ } "/a" ["200", "2"]).WriteHeader 301) 5 false
    { n := 1, err := none } [9]).2.1 (by decide)
  exact ⟨h204.2, by decide, h301.1, h301.2⟩


theorem writeAll_spec (calls : List WriteCall) :
    ∀ r : CustomWriter, codeMatches r.status r.cacheResponseCodes = true →
      (r.writeAll calls).idx = r.idx + calls.length ∧
      (r.writeAll calls).store =
        r.store.setFrom (encodingTag (r.rw.headerGet "Content-Encoding") ++ "::" ++ r.path) r.idx
          (calls.map WriteCall.toChunkWrite) ∧
      (r.writeAll calls).rw.body = r.rw.body ++ calls.map (fun c => c.b) := by
  induction calls with
  | nil =>
    intro r _
    simp [CustomWriter.writeAll, Store.setFrom]
  | cons c cs ih =>
    intro r h
    have hw := Write_of_match r c.now c.fault c.reply c.b h
    obtain ⟨h1, h2, h3⟩ := ih (r.Write c.now c.fault c.reply c.b).1 (by rw [hw]; exact h)
    have hct : (r.Write c.now c.fault c.reply c.b).1.rw.headerGet "Content-Encoding" =
        r.rw.headerGet "Content-Encoding" := by
      rw [hw]
      exact headerGet_headerSet_ne r.rw _ _ _ (by decide)
    simp only [CustomWriter.writeAll, List.map_cons, Store.setFrom, List.length_cons]
    rw [h1, h2, h3, hct, hw]
    refine ⟨?_, rfl, ?_⟩
    · simp only [Nat.cast_add, Nat.cast_one]; omega
    · simp

/-- C8: on a capture for path `p` with chunk index 0, a status that matches a
configured pattern and `Content-Encoding` header `e`, over a store with no
in-memory entry for `e::p` (`none::p` when `e` is empty), the Writes
`b0..b(n-1)` make exactly the calls `Set(e::p, 0, b0)`, ..., `Set(e::p, n-1,
b(n-1))`; the chunk index ends at `n`, the underlying writer has received
`b0..b(n-1)` in order, and a `Get(e::p)` within the TTL of the first Write
returns `b0 ++ ... ++ b(n-1)`. -/
theorem capture_mirrors_response (r : CustomWriter) (e : String) (c : WriteCall)
    (cs : List WriteCall) (hidx : r.idx = 0)
    (hstatus : codeMatches r.status r.cacheResponseCodes = true)
    (he : r.rw.headerGet "Content-Encoding" = e)
    (habsent : r.store.memCache.lookup (normalize (encodingTag e ++ "::" ++ r.path)) = none) :
    (r.writeAll (c :: cs)).idx = (c :: cs).length ∧
    (r.writeAll (c :: cs)).store =
      r.store.setFrom (encodingTag e ++ "::" ++ r.path) 0
        ((c :: cs).map WriteCall.toChunkWrite) ∧
    (r.writeAll (c :: cs)).rw.body = r.rw.body ++ (c :: cs).map (fun x => x.b) ∧
    (∀ now : Int, now - c.now ≤ r.store.ttl →
      ((r.writeAll (c :: cs)).store.Get now (encodingTag e ++ "::" ++ r.path)).result =
        .ok ((c :: cs).map (fun x => x.b)).flatten) := by
  obtain ⟨h1, h2, h3⟩ := writeAll_spec (c :: cs) r hstatus
  rw [he, hidx] at h2
  rw [hidx] at h1
  refine ⟨by rw [h1]; simp, h2, h3, ?_⟩
  intro now hnow
  have hl := setFrom_lookup_zero (encodingTag e ++ "::" ++ r.path) c.toChunkWrite
    (cs.map WriteCall.toChunkWrite) r.store
  rw [habsent] at hl
  rw [h2, List.map_cons, Get_of_lookup _ now _ _ hl, setFrom_ttl]
  have hc : c.toChunkWrite.now = c.now := rfl
  simp only [hc]
  rw [if_neg (by omega)]
  simp [joinChunks, WriteCall.toChunkWrite, Function.comp_def]

/-- Concrete instance: two Writes on a fresh capture with pattern `2`. -/
theorem capture_mirrors_response_witness :
    (((NewCustomWriter { header := ∅, statuses := [], body := [] }
        { ttl := 60, memCache := ∅, disk := ∅ } "/a" ["2"]).writeAll
      [⟨5, false, ⟨1, none⟩, [1]⟩, ⟨6, false, ⟨2, none⟩, [2, 3]⟩]).idx = 2) ∧
    (((NewCustomWriter { header := ∅, statuses := [], body := [] }
        { ttl := 60, memCache := ∅, disk := ∅ } "/a" ["2"]).writeAll
      [⟨5, false, ⟨1, none⟩, [1]⟩, ⟨6, false, ⟨2, none⟩, [2, 3]⟩]).rw.body = [[1], [2, 3]]) ∧
    (((NewCustomWriter { header := ∅, statuses := [], body := [] }
        { ttl := 60, memCache := ∅, disk := ∅ } "/a" ["2"]).writeAll
      [⟨5, false, ⟨1, none⟩, [1]⟩, ⟨6, false, ⟨2, none⟩, [2, 3]⟩]).store.Get 65
        "none::/a").result = .ok [1, 2, 3] := by
  have h := capture_mirrors_response
    (NewCustomWriter { header := ∅, statuses := [], body := [] }
      { ttl := 60, memCache := ∅, disk := ∅ } "/a" ["2"]) "" ⟨5, false, ⟨1, none⟩, [1]⟩
    [⟨6, false, ⟨2, none⟩, [2, 3]⟩] rfl (by decide) rfl rfl
  exact ⟨h.1, h.2.2.1, h.2.2.2 65 (by decide)⟩

/-- C5 (failing input): eleven one-byte chunks `[0]`, ..., `[10]` written with
`Set(k,0,_)` ... `Set(k,10,_)` on an empty store, all disk writes succeeding.
Before the restart `Get(k)` returns them in index order; the store rebuilt by
`NewStore` over the same disk tree returns chunk 10 between chunks 1 and 2,
the order of the file names `0, 1, 10, 2, ..., 9` in the directory listing. -/
theorem disk_recovery_eleven_chunks :
    ((({ ttl := 60, memCache := ∅, disk := ∅ } : Store).setFrom "none::/p" 0
        [⟨5, false, [0]⟩, ⟨5, false, [1]⟩, ⟨5, false, [2]⟩, ⟨5, false, [3]⟩, ⟨5, false, [4]⟩,
          ⟨5, false, [5]⟩, ⟨5, false, [6]⟩, ⟨5, false, [7]⟩, ⟨5, false, [8]⟩, ⟨5, false, [9]⟩,
          ⟨5, false, [10]⟩]).Get 6 "none::/p").result
      = .ok [0, 1, 2, 3, 4, 5, 6, 7, 8, 9, 10] ∧
    ((NewStore (({ ttl := 60, memCache := ∅, disk := ∅ } : Store).setFrom "none::/p" 0
        [⟨5, false, [0]⟩, ⟨5, false, [1]⟩, ⟨5, false, [2]⟩, ⟨5, false, [3]⟩, ⟨5, false, [4]⟩,
          ⟨5, false, [5]⟩, ⟨5, false, [6]⟩, ⟨5, false, [7]⟩, ⟨5, false, [8]⟩, ⟨5, false, [9]⟩,
          ⟨5, false, [10]⟩]).disk 60 6).Get 6 "none::/p").result
      = .ok [0, 1, 10, 2, 3, 4, 5, 6, 7, 8, 9] := by
  decide


theorem byteZero_ascii (code : String) (c : Char) (cs : List Char) (h : code.data = c :: cs)
    (hc : c.toNat < 128) : byteZero code = String.singleton c := by
  unfold byteZero
  rw [h]
  simp only
  have key : ∀ n : Nat, n < 128 →
      Char.ofNat ((String.utf8EncodeChar (Char.ofNat n)).headD 0).toNat = Char.ofNat n := by
    decide
  have := key c.toNat hc
  rw [Char.ofNat_toNat] at this
  rw [this]

/-- C11: `Set` returns a nil error whether or not the disk write fails, and
afterwards the in-memory value for the normalised key is its previous value
(empty when the key was absent) followed by the bytes written. -/
theorem Set_nonfatal_appends (d : Store) (now : Int) (fault : Bool) (key : String) (idx : Int)
    (b : Bytes) :
    (d.Set now fault key idx b).2 = none ∧
      ((d.Set now fault key idx b).1.memCache.lookup (normalize key)).map (fun item => item.value) =
        some (((d.memCache.lookup (normalize key)).map (fun item => item.value)).getD [] ++ b) := by
  refine ⟨rfl, ?_⟩
  rw [Set_lookup]
  cases d.memCache.lookup (normalize key) <;> rfl

/-- C12: a `Write(b)` on a capture whose status matches no configured pattern
leaves the store (in-memory index and disk mirror) and the chunk index
unchanged; whether or not the status matches, `b` is appended unmodified to
what the underlying writer has received, and `Write` returns the underlying
writer's answer. -/
theorem pass_through_without_caching (r : CustomWriter) (now : Int) (fault : Bool)
    (reply : WriteReply) (b : Bytes) :
    (¬ (∃ code ∈ r.cacheResponseCodes, code = Itoa r.status ∨
          (code.length = 1 ∧ code = firstByte (Itoa r.status))) →
        (r.Write now fault reply b).1.store = r.store ∧
        (r.Write now fault reply b).1.idx = r.idx) ∧
    (r.Write now fault reply b).1.rw.body = r.rw.body ++ [b] ∧
    (r.Write now fault reply b).2 = reply := by
  refine ⟨?_, ?_, rfl⟩
  · intro h
    have hm : codeMatches r.status r.cacheResponseCodes = false := by
      cases hc : codeMatches r.status r.cacheResponseCodes with
      | false => rfl
      | true => exact absurd ((codeMatches_iff _ _).1 hc) h
    rw [Write_of_no_match r now fault reply b hm]
    exact ⟨rfl, rfl⟩
  · cases hc : codeMatches r.status r.cacheResponseCodes with
    | false => rw [Write_of_no_match r now fault reply b hc]
    | true => rw [Write_of_match r now fault reply b hc]

/-- Concrete instance: with pattern `200` and status 404 the store stays empty
and the chunk reaches the underlying writer. -/
theorem pass_through_without_caching_witness :
    (((NewCustomWriter { header := ∅, statuses := [], body := [] }
          { ttl := 60, memCache := ∅, disk := ∅ } "/a" ["200"]).WriteHeader 404).Write 5 false
        { n := 2, err := none } [7, 8]).1.store = { ttl := 60, memCache := ∅, disk := ∅ } ∧
    (((NewCustomWriter { header := ∅, statuses := [], body := [] }
          { ttl := 60, memCache := ∅, disk := ∅ } "/a" ["200"]).WriteHeader 404).Write 5 false
        { n := 2, err := none } [7, 8]).1.rw.body = [[7, 8]] := by
  have h := pass_through_without_caching
    ((NewCustomWriter { header := ∅, statuses := [], body := [] }
      { ttl := 60, memCache := ∅, disk := ∅ } "/a" ["200"]).WriteHeader 404) 5 false
    { n := 2, err := none } [7, 8]
  exact ⟨(h.1 (by decide)).1, h.2.1⟩

theorem Write_status (r : CustomWriter) (now : Int) (fault : Bool) (reply : WriteReply)
    (b : Bytes) :
    (r.Write now fault reply b).1.status = r.status ∧
      (r.Write now fault reply b).1.cacheResponseCodes = r.cacheResponseCodes := by
  cases hc : codeMatches r.status r.cacheResponseCodes with
  | false => rw [Write_of_no_match r now fault reply b hc]; exact ⟨rfl, rfl⟩
  | true => rw [Write_of_match r now fault reply b hc]; exact ⟨rfl, rfl⟩

theorem writeAll_status (calls : List WriteCall) :
    ∀ r : CustomWriter, (r.writeAll calls).status = r.status := by
  induction calls with
  | nil => intro r; rfl
  | cons c cs ih =>
    intro r
    simp only [CustomWriter.writeAll]
    rw [ih, (Write_status r c.now c.fault c.reply c.b).1]

theorem codeMatches_200 (codes : List String) :
    codeMatches 200 codes = true ↔ "200" ∈ codes ∨ "2" ∈ codes := by
  rw [codeMatches_iff]
  have h1 : Itoa 200 = "200" := by decide
  have h2 : firstByte "200" = "2" := by decide
  rw [h1, h2]
  constructor
  · rintro ⟨code, hm, h | ⟨_, h⟩⟩
    · exact Or.inl (h ▸ hm)
    · exact Or.inr (h ▸ hm)
  · rintro (h | h)
    · exact ⟨"200", h, Or.inl rfl⟩
    · exact ⟨"2", h, Or.inr ⟨by decide, rfl⟩⟩

theorem writeAll_no_match (calls : List WriteCall) :
    ∀ r : CustomWriter, codeMatches r.status r.cacheResponseCodes = false →
      (r.writeAll calls).store = r.store ∧ (r.writeAll calls).idx = r.idx := by
  induction calls with
  | nil => intro r _; exact ⟨rfl, rfl⟩
  | cons c cs ih =>
    intro r h
    have hw := Write_of_no_match r c.now c.fault c.reply c.b h
    obtain ⟨h1, h2⟩ := ih (r.Write c.now c.fault c.reply c.b).1 (by rw [hw]; exact h)
    simp only [CustomWriter.writeAll]
    rw [h1, h2, hw]
    exact ⟨rfl, rfl⟩

/-- C18: a capture on which `WriteHeader` was never called has status 200, so
its Writes are stored exactly when the configured patterns contain `200` or
the one-character pattern `2`: then the Writes `b0..b(n-1)` are the calls
`Set(key, 0, b0)`, ..., `Set(key, n-1, b(n-1))`, the in-memory value of the
key becomes its previous value followed by `b0 ++ ... ++ b(n-1)`, and a `Get`
within the TTL returns it; otherwise the store and the chunk index stay as
they were. After `WriteHeader(s)` the status is `s` and stays `s` through
every later `Write`, and it is `s` that decides whether those Writes are
stored. -/
theorem default_status (rw : ResponseWriter) (db : Store) (path : String) (codes : List String)
    (c : WriteCall) (cs : List WriteCall) :
    (NewCustomWriter rw db path codes).status = 200 ∧
    (("200" ∈ codes ∨ "2" ∈ codes) →
      ((NewCustomWriter rw db path codes).writeAll (c :: cs)).idx = (c :: cs).length ∧
      ((NewCustomWriter rw db path codes).writeAll (c :: cs)).store =
        db.setFrom (encodingTag (rw.headerGet "Content-Encoding") ++ "::" ++ path) 0
          ((c :: cs).map WriteCall.toChunkWrite) ∧
      ((((NewCustomWriter rw db path codes).writeAll (c :: cs)).store.memCache.lookup
          (normalize (encodingTag (rw.headerGet "Content-Encoding") ++ "::" ++ path))).map
            (fun item => item.value) =
        some (((db.memCache.lookup
          (normalize (encodingTag (rw.headerGet "Content-Encoding") ++ "::" ++ path))).map
            (fun item => item.value)).getD [] ++ ((c :: cs).map (fun x => x.b)).flatten)) ∧
      (∀ now : Int, now - c.now ≤ db.ttl →
        (((NewCustomWriter rw db path codes).writeAll (c :: cs)).store.Get now
          (encodingTag (rw.headerGet "Content-Encoding") ++ "::" ++ path)).result =
        .ok (((db.memCache.lookup
          (normalize (encodingTag (rw.headerGet "Content-Encoding") ++ "::" ++ path))).map
            (fun item => item.value)).getD [] ++ ((c :: cs).map (fun x => x.b)).flatten))) ∧
    (¬ ("200" ∈ codes ∨ "2" ∈ codes) →
      ((NewCustomWriter rw db path codes).writeAll (c :: cs)).store = db ∧
      ((NewCustomWriter rw db path codes).writeAll (c :: cs)).idx = 0) ∧
    (∀ (r : CustomWriter) (s : Int) (calls : List WriteCall),
      (r.WriteHeader s).status = s ∧ ((r.WriteHeader s).writeAll calls).status = s ∧
      (codeMatches s r.cacheResponseCodes = true →
        ((r.WriteHeader s).writeAll calls).idx = r.idx + calls.length ∧
        ((r.WriteHeader s).writeAll calls).store =
          r.store.setFrom (encodingTag (r.rw.headerGet "Content-Encoding") ++ "::" ++ r.path)
            r.idx (calls.map WriteCall.toChunkWrite)) ∧
      (codeMatches s r.cacheResponseCodes = false →
        ((r.WriteHeader s).writeAll calls).store = r.store ∧
        ((r.WriteHeader s).writeAll calls).idx = r.idx)) := by
  refine ⟨rfl, ?_, ?_, ?_⟩
  · intro h
    have hm : codeMatches (NewCustomWriter rw db path codes).status
        (NewCustomWriter rw db path codes).cacheResponseCodes = true :=
      (codeMatches_200 codes).2 h
    obtain ⟨h1, h2, _⟩ := writeAll_spec (c :: cs) (NewCustomWriter rw db path codes) hm
    have h2' : ((NewCustomWriter rw db path codes).writeAll (c :: cs)).store =
        db.setFrom (encodingTag (rw.headerGet "Content-Encoding") ++ "::" ++ path) 0
          ((c :: cs).map WriteCall.toChunkWrite) := h2
    have hl := setFrom_lookup_zero
      (encodingTag (rw.headerGet "Content-Encoding") ++ "::" ++ path) c.toChunkWrite
      (cs.map WriteCall.toChunkWrite) db
    have hj : joinChunks (c.toChunkWrite :: cs.map WriteCall.toChunkWrite) =
        ((c :: cs).map (fun x => x.b)).flatten := by
      simp [joinChunks, WriteCall.toChunkWrite, Function.comp_def]
    refine ⟨?_, h2', ?_, ?_⟩
    · rw [h1]
      show (0 : Int) + _ = _
      simp
    · rw [h2', List.map_cons, hl, hj]
      cases db.memCache.lookup
        (normalize (encodingTag (rw.headerGet "Content-Encoding") ++ "::" ++ path)) <;> rfl
    · intro now hnow
      rw [h2', List.map_cons, Get_of_lookup _ now _ _ hl, setFrom_ttl, hj]
      have hc : c.toChunkWrite.now = c.now := rfl
      cases db.memCache.lookup
        (normalize (encodingTag (rw.headerGet "Content-Encoding") ++ "::" ++ path)) with
      | none =>
        simp only [hc, Option.map_none', Option.getD_none, List.nil_append]
        rw [if_neg (by omega)]
      | some item =>
        simp only [hc, Option.map_some', Option.getD_some]
        rw [if_neg (by omega)]
  · intro h
    have hm : codeMatches (NewCustomWriter rw db path codes).status
        (NewCustomWriter rw db path codes).cacheResponseCodes = false := by
      cases hc : codeMatches 200 codes with
      | false => exact hc
      | true => exact absurd ((codeMatches_200 codes).1 hc) h
    exact writeAll_no_match (c :: cs) _ hm
  · intro r s calls
    refine ⟨rfl, by rw [writeAll_status]; rfl, ?_, ?_⟩
    · intro hm
      obtain ⟨h1, h2, _⟩ := writeAll_spec calls (r.WriteHeader s) hm
      exact ⟨h1, h2⟩
    · intro hm
      exact writeAll_no_match calls (r.WriteHeader s) hm

/-- Concrete instance: a fresh capture with pattern `2` stores both of its
Writes, and a `Get` returns them; with pattern `404` it stores nothing; after
`WriteHeader(404)` the same capture stores them and the one with pattern `2`
does not. -/
theorem default_status_witness :
    (((NewCustomWriter { header := ∅, statuses := [], body := [] }
        { ttl := 60, memCache := ∅, disk := ∅ } "/a" ["2"]).writeAll
        [⟨5, false, ⟨1, none⟩, [1]⟩, ⟨6, false, ⟨2, none⟩, [2, 3]⟩]).store.Get 7
        "none::/a").result = .ok [1, 2, 3] ∧
    ((NewCustomWriter { header := ∅, statuses := [], body := [] }
        { ttl := 60, memCache := ∅, disk := ∅ } "/a" ["404"]).writeAll
        [⟨5, false, ⟨1, none⟩, [1]⟩, ⟨6, false, ⟨2, none⟩, [2, 3]⟩]).store =
      { ttl := 60, memCache := ∅, disk := ∅ } ∧
    ((((NewCustomWriter { header := ∅, statuses := [], body := [] }
        { ttl := 60, memCache := ∅, disk := ∅ } "/a" ["404"]).WriteHeader 404).writeAll
        [⟨5, false, ⟨1, none⟩, [1]⟩, ⟨6, false, ⟨2, none⟩, [2, 3]⟩]).store.Get 7
        "none::/a").result = .ok [1, 2, 3] ∧
    ((((NewCustomWriter { header := ∅, statuses := [], body := [] }
        { ttl := 60, memCache := ∅, disk := ∅ } "/a" ["2"]).WriteHeader 404).writeAll
        [⟨5, false, ⟨1, none⟩, [1]⟩, ⟨6, false, ⟨2, none⟩, [2, 3]⟩]).store.Get 7
        "none::/a").result = .error .notFound :=
  ⟨(((default_status { header := ∅, statuses := [], body := [] }
        { ttl := 60, memCache := ∅, disk := ∅ } "/a" ["2"] ⟨5, false, ⟨1, none⟩, [1]⟩
        [⟨6, false, ⟨2, none⟩, [2, 3]⟩]).2.1 (by decide)).2.2.2 7 (by decide)),
    ((default_status { header := ∅, statuses := [], body := [] }
        { ttl := 60, memCache := ∅, disk := ∅ } "/a" ["404"] ⟨5, false, ⟨1, none⟩, [1]⟩
        [⟨6, false, ⟨2, none⟩, [2, 3]⟩]).2.2.1 (by decide)).1,
    by decide, by decide⟩

theorem ServeHTTP_post_purge (c : Cache) (w : ResponseWriter) (r : Request) (now : Int)
    (hb : c.bypass r = false) (hp : Contains r.path c.PurgePath = true) (hm : r.method = "POST") :
    c.ServeHTTP w r now =
      { spawned :=
          if r.headerGet "X-WPSidekick-Purge-Key" = c.PurgeKey then
            (if (ReplaceFirst r.path c.PurgePath).utf8ByteSize < 2 then [Task.flush]
              else [Task.purge (ReplaceFirst r.path c.PurgePath)])
          else []
        outcome := .ok { w with body := w.body ++ [[79, 75]] } } := by
  have hg : ¬ (r.method = "GET") := by rw [hm]; decide
  unfold Cache.ServeHTTP
  simp only [hb, hp, hm, Bool.false_eq_true, if_false, Bool.true_and, decide_eq_true_eq,
    Bool.and_eq_true, if_true]
  rw [if_neg (by rintro ⟨h, _⟩; exact absurd h (by decide))]

/-- C14 (as the code behaves): a non-bypassed POST to the purge path whose
`X-WPSidekick-Purge-Key` header differs from the configured key starts neither
`Flush` nor `Purge`, but it is answered like a purge request: the handler
writes `OK` and returns, without a cache lookup and without calling the
origin. -/
theorem unauthorized_purge_answered (c : Cache) (w : ResponseWriter) (r : Request) (now : Int)
    (hb : c.bypass r = false) (hp : Contains r.path c.PurgePath = true) (hm : r.method = "POST")
    (hk : r.headerGet "X-WPSidekick-Purge-Key" ≠ c.PurgeKey) :
    c.ServeHTTP w r now =
      { spawned := [], outcome := .ok { w with body := w.body ++ [[79, 75]] } } := by
  rw [ServeHTTP_post_purge c w r now hb hp hm, if_neg hk]

/-- Concrete instance, the failing input of C14: with purge key `s3`, a POST to
`/__wp_cache/purge/foo` carrying the key `wrong` is answered `OK`; the same
request sent as a GET falls through to the cache lookup and the origin. -/
theorem unauthorized_purge_answered_witness :
    ((Provision Config.zero ⟨"", "", "", "", "", "", "s3"⟩ ∅ 0).ServeHTTP ⟨∅, [], []⟩
        ⟨"POST", "/__wp_cache/purge/foo",
          (∅ : AList (fun _ : String => List String)).insert "X-WPSidekick-Purge-Key" ["wrong"]⟩ 1
      = { spawned := [], outcome := .ok ⟨∅, [], [[79, 75]]⟩ }) ∧
    ((Provision Config.zero ⟨"", "", "", "", "", "", "s3"⟩ ∅ 0).ServeHTTP ⟨∅, [], []⟩
        ⟨"GET", "/__wp_cache/purge/foo",
          (∅ : AList (fun _ : String => List String)).insert "X-WPSidekick-Purge-Key" ["wrong"]⟩ 1
      = { spawned := []
          outcome := .captured (NewCustomWriter ⟨∅, [], []⟩ (NewStore ∅ 0 0)
            "/__wp_cache/purge/foo" [""]) }) :=
  ⟨unauthorized_purge_answered (Provision Config.zero ⟨"", "", "", "", "", "", "s3"⟩ ∅ 0)
      ⟨∅, [], []⟩
      ⟨"POST", "/__wp_cache/purge/foo",
        (∅ : AList (fun _ : String => List String)).insert "X-WPSidekick-Purge-Key" ["wrong"]⟩ 1
      (by decide) (by decide) rfl (by decide),
    rfl⟩

/-- C17 (as the code behaves): on a configuration produced by `Provision`, a
non-bypassed POST to the purge path that carries no `X-WPSidekick-Purge-Key`
header starts no goroutine when the purge key is non-empty; when no purge key
is configured (none in the Caddyfile, `PURGE_KEY` unset) the absent header
equals the empty key and the handler starts `Flush` (path remainder shorter
than two bytes) or `Purge` of the remainder. -/
theorem purge_without_presented_key (cfg : Config) (env : Env) (disk : Disk) (now : Int)
    (w : ResponseWriter) (r : Request) (now' : Int)
    (hb : (Provision cfg env disk now).bypass r = false)
    (hp : Contains r.path (Provision cfg env disk now).PurgePath = true)
    (hm : r.method = "POST") (hh : r.header.lookup "X-WPSidekick-Purge-Key" = none) :
    ((Provision cfg env disk now).PurgeKey ≠ "" →
      ((Provision cfg env disk now).ServeHTTP w r now').spawned = []) ∧
    (cfg.PurgeKey = "" → env.PURGE_KEY = "" →
      ((Provision cfg env disk now).ServeHTTP w r now').spawned =
        if (ReplaceFirst r.path (Provision cfg env disk now).PurgePath).utf8ByteSize < 2 then
          [Task.flush]
        else [Task.purge (ReplaceFirst r.path (Provision cfg env disk now).PurgePath)]) := by
  have hget : r.headerGet "X-WPSidekick-Purge-Key" = "" := by
    unfold Request.headerGet
    rw [hh]
  rw [ServeHTTP_post_purge _ w r now' hb hp hm, hget]
  constructor
  · intro hne
    rw [if_neg (fun e => hne e.symm)]
  · intro h1 h2
    have hk : (Provision cfg env disk now).PurgeKey = "" := by
      unfold Provision
      simp only [h1, h2, if_true]
    rw [if_pos hk.symm]

/-- Concrete instance, the failing input of C17: no purge key configured and
`PURGE_KEY` unset; a POST to `/__wp_cache/purge` without the header starts
`Flush`, and a POST to `/__wp_cache/purge/foo` starts `Purge("/foo")`. -/
theorem purge_without_presented_key_witness :
    ((Provision Config.zero ⟨"", "", "", "", "", "", ""⟩ ∅ 0).ServeHTTP ⟨∅, [], []⟩
        ⟨"POST", "/__wp_cache/purge", ∅⟩ 1).spawned = [Task.flush] ∧
    ((Provision Config.zero ⟨"", "", "", "", "", "", ""⟩ ∅ 0).ServeHTTP ⟨∅, [], []⟩
        ⟨"POST", "/__wp_cache/purge/foo", ∅⟩ 1).spawned = [Task.purge "/foo"] :=
  ⟨(purge_without_presented_key Config.zero ⟨"", "", "", "", "", "", ""⟩ ∅ 0 ⟨∅, [], []⟩
      ⟨"POST", "/__wp_cache/purge", ∅⟩ 1 (by decide) (by decide) rfl rfl).2 rfl rfl,
    (purge_without_presented_key Config.zero ⟨"", "", "", "", "", "", ""⟩ ∅ 0 ⟨∅, [], []⟩
      ⟨"POST", "/__wp_cache/purge/foo", ∅⟩ 1 (by decide) (by decide) rfl rfl).2 rfl rfl⟩


theorem codeMatches_two (status : Int) :
    codeMatches status ["2"] = true ↔ firstByte (Itoa status) = "2" := by
  rw [codeMatches_iff]
  constructor
  · rintro ⟨code, hm, h | ⟨_, h⟩⟩
    · simp only [List.mem_singleton] at hm
      rw [← h, hm]; rfl
    · simp only [List.mem_singleton] at hm
      rw [← h, hm]
  · intro h
    exact ⟨"2", by simp, Or.inr ⟨by decide, h.symm⟩⟩

set_option maxRecDepth 100000 in
theorem codeMatches_two_range :
    (∀ n : Nat, n < 100 → codeMatches (Int.ofNat (200 + n)) ["2"] = true) ∧
    (∀ n : Nat, n < 100 → codeMatches (Int.ofNat (100 + n)) ["2"] = false) ∧
    (∀ n : Nat, n < 300 → codeMatches (Int.ofNat (300 + n)) ["2"] = false) := by
  decide

/-- C13 (counterexample): the code `éXX` contains `XX`, its first character is
`é`, and configuration parsing turns it into `Ã`, the character numbered by
its first byte. -/
theorem wildcard_first_byte :
    Contains (TrimSpace "éXX") "XX" = true ∧
    String.mk ((TrimSpace "éXX").data.take 1) = "é" ∧
    (UnmarshalCaddyfile Config.zero [("cache_response_codes", some "éXX")]).CacheResponseCodes =
      some ["Ã"] ∧
    (Provision Config.zero ⟨"", "éXX", "", "", "", "", ""⟩ ∅ 0).CacheResponseCodes = ["Ã"] := by
  decide

/-- C13 (amended): configuration parsing, in `UnmarshalCaddyfile` and in
`Provision`, maps every comma-separated code to its normal form: a trimmed code
that contains `XX` and starts with an ASCII character becomes that first
character, and every code without `XX` is left as it is, trimmed. With
`cache_response_codes 2XX` the patterns are `["2"]`, and a response is cached
exactly when the decimal form of its status starts with `2`: every status in
200..299 is, no status in 100..199 or 300..599 is. -/
theorem wildcard_normalisation :
    (∀ (cfg : Config) (value : String),
      (UnmarshalCaddyfile cfg [("cache_response_codes", some value)]).CacheResponseCodes =
        some ((Split (TrimSpace value)).map normalizeCode)) ∧
    (∀ (cfg : Config) (env : Env) (disk : Disk) (now : Int), cfg.CacheResponseCodes = none →
      (Provision cfg env disk now).CacheResponseCodes =
        (Split env.CACHE_RESPONSE_CODES).map normalizeCode) ∧
    (∀ (code : String) (c : Char) (cs : List Char), Contains (TrimSpace code) "XX" = true →
      (TrimSpace code).data = c :: cs → c.toNat < 128 → normalizeCode code = String.singleton c) ∧
    (∀ code : String, Contains (TrimSpace code) "XX" = false →
      normalizeCode code = TrimSpace code) ∧
    (UnmarshalCaddyfile Config.zero [("cache_response_codes", some "2XX")]).CacheResponseCodes =
      some ["2"] ∧
    (∀ status : Int, codeMatches status ["2"] = true ↔ firstByte (Itoa status) = "2") ∧
    (∀ status : Int, 200 ≤ status → status ≤ 299 → codeMatches status ["2"] = true) ∧
    (∀ status : Int, (100 ≤ status ∧ status ≤ 199) ∨ (300 ≤ status ∧ status ≤ 599) →
      codeMatches status ["2"] = false) := by
  refine ⟨fun cfg value => rfl, ?_, ?_, ?_, by decide, codeMatches_two, ?_, ?_⟩
  · intro cfg env disk now h
    unfold Provision
    simp only [h]
  · intro code c cs hx hd hc
    unfold normalizeCode
    simp only [hx, if_true]
    exact byteZero_ascii _ c cs hd hc
  · intro code hx
    unfold normalizeCode
    simp only [hx, Bool.false_eq_true, if_false]
  · intro status h1 h2
    obtain ⟨n, hn⟩ : ∃ n : Nat, status = Int.ofNat (200 + n) := ⟨(status - 200).toNat, by
      show status = ((200 + (status - 200).toNat : Nat) : Int)
      omega⟩
    rw [hn]
    have hlt : n < 100 := by
      have : status = ((200 + n : Nat) : Int) := hn
      omega
    exact codeMatches_two_range.1 n hlt
  · intro status h
    rcases h with ⟨h1, h2⟩ | ⟨h1, h2⟩
    · obtain ⟨n, hn⟩ : ∃ n : Nat, status = Int.ofNat (100 + n) := ⟨(status - 100).toNat, by
        show status = ((100 + (status - 100).toNat : Nat) : Int)
        omega⟩
      rw [hn]
      have hlt : n < 100 := by
        have : status = ((100 + n : Nat) : Int) := hn
        omega
      exact codeMatches_two_range.2.1 n hlt
    · obtain ⟨n, hn⟩ : ∃ n : Nat, status = Int.ofNat (300 + n) := ⟨(status - 300).toNat, by
        show status = ((300 + (status - 300).toNat : Nat) : Int)
        omega⟩
      rw [hn]
      have hlt : n < 300 := by
        have : status = ((300 + n : Nat) : Int) := hn
        omega
      exact codeMatches_two_range.2.2 n hlt

/-- Concrete instance: ` 2XX , 404 ` is parsed to `2` and `404`; status 204 is
then stored and status 404 is stored by the exact pattern. -/
theorem wildcard_normalisation_witness :
    (UnmarshalCaddyfile Config.zero [("cache_response_codes", some " 2XX , 404 ")]).CacheResponseCodes
      = some ["2", "404"] ∧
    normalizeCode " 2XX" = String.singleton '2' ∧
    codeMatches 204 ["2"] = true ∧ codeMatches 301 ["2"] = false :=
  ⟨by decide, wildcard_normalisation.2.2.1 " 2XX" '2' ['X', 'X'] (by decide) (by decide) (by decide),
    wildcard_normalisation.2.2.2.2.2.2.1 204 (by decide) (by decide),
    wildcard_normalisation.2.2.2.2.2.2.2 301 (Or.inr ⟨by decide, by decide⟩)⟩


theorem mem_listDisk (name : String) (l : List (String × RootEntry)) :
    name ∈ listDisk l ↔ ∃ content, (name, RootEntry.file content) ∈ l := by
  induction l with
  | nil => simp [listDisk]
  | cons x rest ih =>
    obtain ⟨n, e⟩ := x
    cases e with
    | file c =>
      simp only [listDisk, List.mem_cons, ih, Prod.mk.injEq, RootEntry.file.injEq]
      constructor
      · rintro (h | ⟨content, h⟩)
        · exact ⟨c, Or.inl ⟨h, rfl⟩⟩
        · exact ⟨content, Or.inr h⟩
      · rintro ⟨content, h | h⟩
        · exact Or.inl h.1
        · exact Or.inr ⟨content, h⟩
    | dir l pages =>
      simp only [listDisk, List.mem_cons, ih, Prod.mk.injEq, reduceCtorEq, and_false, false_or]

theorem mem_dirListing {β : Type} (l : List (String × β)) (x : String × β) :
    x ∈ dirListing l ↔ validName x.1 = true ∧ x ∈ l := by
  unfold dirListing sortByName
  rw [(List.perm_insertionSort _ _).mem_iff, List.mem_filter]
  exact And.comm

theorem mem_readRoot (t : Disk) (name : String) (e : RootEntry) :
    (name, e) ∈ t.readRoot ↔ t.lookup name = some e := by
  unfold Disk.readRoot Disk.lookup
  rw [mem_dirListing]
  have hl : (name, e) ∈ t.root.entries.map (fun e => (e.1, e.2)) ↔
      t.root.lookup name = some e := by
    rw [← Option.mem_def, AList.mem_lookup_iff]
    constructor
    · intro h
      obtain ⟨x, hx, hxe⟩ := List.mem_map.1 h
      obtain ⟨a, b⟩ := x
      simp only [Prod.mk.injEq] at hxe
      obtain ⟨rfl, rfl⟩ := hxe
      exact hx
    · intro h
      exact List.mem_map.2 ⟨⟨name, e⟩, h, rfl⟩
  rw [hl]
  by_cases hv : validName name = true
  · simp [hv]
  · simp [hv]

theorem resolve_not_child (a : String) (h : ∀ n, resolve a ≠ .child n) : validName a = false := by
  cases hv : validName a with
  | false => rfl
  | true => exact absurd (resolve_of_valid a hv) (h a)

theorem lookup_writeFile_self (t t' : Disk) (a f : String) (v : Bytes)
    (hw : t.writeFile a f v = some t') : ∀ content, t'.lookup a ≠ some (.file content) := by
  intro content
  cases hr : resolve a with
  | child n =>
    have hn := resolve_child_eq a n hr
    subst hn
    unfold Disk.writeFile at hw
    rw [hr] at hw
    split at hw
    · simp only at hw
      split at hw
      · split at hw
        · cases hw
        · cases hw
          unfold Disk.lookup
          split
          · rw [AList.lookup_insert]
            intro e
            cases e
          · intro e
            cases e
      · cases hw
    · cases hw
  | root =>
    have hv := resolve_not_child a (by intro n e; rw [hr] at e; cases e)
    unfold Disk.lookup
    rw [if_neg (by rw [hv]; decide)]
    intro e
    cases e
  | parent =>
    have hv := resolve_not_child a (by intro n e; rw [hr] at e; cases e)
    unfold Disk.lookup
    rw [if_neg (by rw [hv]; decide)]
    intro e
    cases e
  | invalid =>
    have hv := resolve_not_child a (by intro n e; rw [hr] at e; cases e)
    unfold Disk.lookup
    rw [if_neg (by rw [hv]; decide)]
    intro e
    cases e

/-- C15 (as the code behaves): the `mem` list of `List()` holds exactly the keys
of the in-memory index, each once; its `disk` list holds the names of those
direct children of the cache root that are not directories. A `Set` whose disk
write succeeds creates a directory, so its normalised key is in the `mem` list
and is not in the `disk` list. -/
theorem List_reflects_store (d : Store) :
    d.List.mem.Nodup ∧
    (∀ k : String, k ∈ d.List.mem ↔ (d.memCache.lookup k).isSome = true) ∧
    (∀ name : String,
      name ∈ d.List.disk ↔ ∃ content, d.disk.lookup name = some (RootEntry.file content)) ∧
    (∀ (now : Int) (key : String) (idx : Int) (b : Bytes) (t' : Disk),
      (d.disk.mkdirAll (normalize key)).writeFile (normalize key) (Itoa idx) b = some t' →
        normalize key ∈ (d.Set now false key idx b).1.List.mem ∧
        normalize key ∉ (d.Set now false key idx b).1.List.disk) := by
  have hdisk : ∀ (s : Store) (name : String),
      name ∈ s.List.disk ↔ ∃ content, s.disk.lookup name = some (RootEntry.file content) := by
    intro s name
    show name ∈ listDisk s.disk.readRoot ↔ _
    rw [mem_listDisk]
    simp only [mem_readRoot]
  have hmem : ∀ (s : Store) (k : String),
      k ∈ s.List.mem ↔ (s.memCache.lookup k).isSome = true := by
    intro s k
    show k ∈ s.memCache.keys ↔ _
    rw [AList.lookup_isSome, AList.mem_keys]
  refine ⟨AList.keys_nodup _, hmem d, hdisk d, ?_⟩
  intro now key idx b t' hw
  constructor
  · rw [hmem, Set_lookup]
    rfl
  · rw [hdisk]
    have hd : (d.Set now false key idx b).1.disk = t' := by
      unfold Store.Set
      simp only [Bool.false_eq_true, if_false, hw]
    rw [hd]
    rintro ⟨content, h⟩
    exact lookup_writeFile_self _ t' _ _ b hw content h

/-- Concrete instance, the failing input of C15: after `Set("none::/a", 0, [1])`
on an empty store, with the disk write succeeding, the `mem` list is
`["none::+a"]` and the `disk` list is empty. -/
theorem List_reflects_store_witness :
    (({ ttl := 60, memCache := ∅, disk := ∅ } : Store).Set 5 false "none::/a" 0 [1]).1.List =
      { mem := ["none::+a"], disk := [] } ∧
    "none::+a" ∉ (({ ttl := 60, memCache := ∅, disk := ∅ } : Store).Set 5 false "none::/a" 0
      [1]).1.List.disk :=
  ⟨by decide,
    ((List_reflects_store ({ ttl := 60, memCache := ∅, disk := ∅ } : Store)).2.2.2 5 "none::/a" 0
      [1] _ rfl).2⟩

end Sidekick
